import Mathlib

/-!
# Verification of the SGQR TLV codec, CRC-16 engine and payload assembler

Shallow embedding of `src/sgqr-generator/sgqr_generator.py` (class
`SGQRGenerator`).  Python strings are modelled as Lean `String`s (sequences of
code points, which is also what Python indexes by); machine integers are `Nat`
with explicit masking, exactly as the source masks with `& 0xFFFF`.  The one
ambient effect of the source — `datetime.now().strftime("%Y%m%d")`, used as the
default revision date — is modelled as an explicit `today : String` parameter.
-/

namespace SGQR

/-- Python `str.zfill`: left-pad with `'0'` to the requested width, keeping a
leading `'+'`/`'-'` sign in place.  The tags and lengths fed to it by this
program are unsigned digit strings, but the sign case is kept for fidelity. -/
def zfill (width : Nat) (s : String) : String :=
  if width ≤ s.length then s
  else
    match s.data with
    | c :: rest =>
      if c = '+' ∨ c = '-' then
        ⟨c :: List.replicate (width - s.length) '0' ++ rest⟩
      else
        ⟨List.replicate (width - s.length) '0' ++ s.data⟩
    | [] => ⟨List.replicate width '0'⟩

/-- CRC parameters for ISO/IEC 13239 (`CRC_POLYNOMIAL`). -/
def CRC_POLYNOMIAL : Nat := 0x1021

/-- CRC parameters for ISO/IEC 13239 (`CRC_INIT_VALUE`). -/
def CRC_INIT_VALUE : Nat := 0xFFFF

/-- One iteration of the inner `for _ in range(8)` loop of
`calculate_crc16`: shift, conditionally XOR the polynomial, then mask to 16
bits (the source updates `crc` and then applies `crc &= 0xFFFF`). -/
def crcRound (crc : Nat) : Nat :=
  (if crc &&& 0x8000 ≠ 0 then (crc <<< 1) ^^^ CRC_POLYNOMIAL else crc <<< 1) &&& 0xFFFF

/-- `n` iterations of `crcRound` (the source runs it 8 times per byte). -/
def crcRounds : Nat → Nat → Nat
  | 0, crc => crc
  | n + 1, crc => crcRounds n (crcRound crc)

/-- The body of the `for byte in bytes_data` loop of `calculate_crc16`:
XOR the byte into the high octet, then 8 shift/XOR rounds. -/
def crcStep (crc byte : Nat) : Nat :=
  crcRounds 8 (crc ^^^ (byte <<< 8))

/-- Uppercase hexadecimal digit, as produced by Python `format(·, 'X')`. -/
def hexChar (n : Nat) : Char :=
  if n < 10 then Char.ofNat (48 + n) else Char.ofNat (55 + n)

/-- Fuel-driven digit emitter for uppercase hexadecimal; `hexStrCore (n+1) n []`
is the digit list of `n`.  (The fuel only serves to make the recursion
structural; `fuel > n` is always enough since `n/16 < n` shrinks fast.) -/
def hexStrCore : Nat → Nat → List Char → List Char
  | 0, _, acc => acc
  | fuel + 1, n, acc =>
    if n < 16 then hexChar n :: acc
    else hexStrCore fuel (n / 16) (hexChar (n % 16) :: acc)

/-- Python `format(n, 'X')`: uppercase hexadecimal, no padding. -/
def hexStr (n : Nat) : String :=
  ⟨hexStrCore (n + 1) n []⟩

/-- `SGQRGenerator.calculate_crc16`: append the `"6304"` CRC placeholder,
take the ASCII bytes, fold the CRC-16 register over them, and format the
result as with Python `format(crc, '04X')`. -/
def calculate_crc16 (data : String) : String :=
  let data_with_crc_placeholder := data ++ "6304"
  let bytes_data := data_with_crc_placeholder.data.map Char.toNat
  let crc := bytes_data.foldl crcStep CRC_INIT_VALUE
  zfill 4 (hexStr crc)

/-!
## The CRC-16 engine, as the specification words it

`crcRoundAbs`/`crc16_ccitt_false` restate the algorithm from the spec's
description (test the top bit; shift left; XOR the polynomial `0x1021`;
reduce modulo `2^16`; initial register `0xFFFF`; byte entering the high
octet) to be compared with the source-derived `calculate_crc16`. -/

/-- One round as the spec words it: if the top bit is set, shift left and XOR
with the polynomial, else shift left; mask (reduce mod `2^16`). -/
def crcRoundAbs (crc : Nat) : Nat :=
  (if Nat.testBit crc 15 then crc * 2 ^^^ 0x1021 else crc * 2) % 65536

/-- Eight spec-worded rounds. -/
def crcRoundsAbs : Nat → Nat → Nat
  | 0, crc => crc
  | n + 1, crc => crcRoundsAbs n (crcRoundAbs crc)

/-- CRC-16/CCITT-FALSE over a byte list, as the spec words it. -/
def crc16_ccitt_false (bytes : List Nat) : Nat :=
  bytes.foldl (fun crc byte => crcRoundsAbs 8 (crc ^^^ byte * 256)) 0xFFFF

/-!
## Arithmetic facts about the CRC register
-/

theorem xor_mod_two_pow (a b n : Nat) :
    (a ^^^ b) % 2 ^ n = a % 2 ^ n ^^^ b % 2 ^ n := by
  apply Nat.eq_of_testBit_eq
  intro i
  simp only [Nat.testBit_mod_two_pow, Nat.testBit_xor]
  by_cases h : i < n <;> simp [h]

theorem and_8000_ne_zero_iff (c : Nat) : (c &&& 0x8000 ≠ 0) ↔ Nat.testBit c 15 = true := by
  have h := Nat.and_two_pow c 15
  norm_num at h
  rw [h]
  cases hb : Nat.testBit c 15 <;> simp

theorem testBit_15_iff {c : Nat} (h : c < 65536) :
    Nat.testBit c 15 = true ↔ 32768 ≤ c := by
  rw [Nat.testBit_to_div_mod]
  have h215 : (2 : Nat) ^ 15 = 32768 := by norm_num
  rw [h215]
  simp only [decide_eq_true_eq]
  omega

theorem mask_eq_mod (x : Nat) : x &&& 0xFFFF = x % 65536 := by
  have h := Nat.and_pow_two_sub_one_eq_mod x 16
  norm_num at h
  exact h

theorem shiftLeft_one_eq (x : Nat) : x <<< 1 = x * 2 := by
  rw [Nat.shiftLeft_eq]

theorem crcRound_eq_crcRoundAbs (c : Nat) : crcRound c = crcRoundAbs c := by
  unfold crcRound crcRoundAbs CRC_POLYNOMIAL
  by_cases h : c &&& 0x8000 ≠ 0
  · have hb : Nat.testBit c 15 = true := (and_8000_ne_zero_iff c).mp h
    rw [if_pos h, hb, mask_eq_mod, shiftLeft_one_eq]
    simp
  · have hb : Nat.testBit c 15 = false := by
      rcases Bool.eq_false_or_eq_true (Nat.testBit c 15) with ht | hf
      · exact absurd ((and_8000_ne_zero_iff c).mpr ht) h
      · exact hf
    rw [if_neg h, hb, mask_eq_mod, shiftLeft_one_eq]
    simp

theorem crcRound_lt (c : Nat) : crcRound c < 65536 := by
  have h : crcRound c ≤ 0xFFFF := Nat.and_le_right
  omega

/-- Explicit inverse of one CRC round on the 16-bit register. -/
def roundInv (d : Nat) : Nat :=
  if d % 2 = 1 then (d ^^^ 0x1021) / 2 + 0x8000 else d / 2

theorem roundInv_crcRound {c : Nat} (h : c < 65536) : roundInv (crcRound c) = c := by
  rw [crcRound_eq_crcRoundAbs]
  unfold crcRoundAbs roundInv
  by_cases hb : Nat.testBit c 15 = true
  · have hge : 32768 ≤ c := (testBit_15_iff h).mp hb
    set u := c - 32768 with hu
    have h2c : c * 2 = 65536 + u * 2 := by omega
    have hx : (c * 2 ^^^ 0x1021) % 65536 = u * 2 ^^^ 0x1021 := by
      have e1 : (65536 : Nat) = 2 ^ 16 := by norm_num
      rw [h2c]
      have hm : (65536 + u * 2) % 65536 = u * 2 := by omega
      calc (65536 + u * 2 ^^^ 0x1021) % 65536
          = ((65536 + u * 2) % 65536) ^^^ (0x1021 % 65536) := by
            rw [e1]
            exact xor_mod_two_pow _ _ 16
        _ = u * 2 ^^^ 0x1021 := by rw [hm]
    rw [hb, if_pos rfl, hx]
    have hodd : (u * 2 ^^^ 0x1021) % 2 = 1 := by
      rw [Nat.xor_mod_two_eq_one]
      omega
    rw [if_pos hodd]
    have hcan : u * 2 ^^^ 0x1021 ^^^ 0x1021 = u * 2 := by
      rw [Nat.xor_assoc, Nat.xor_self, Nat.xor_zero]
    rw [hcan]
    omega
  · have hb' : Nat.testBit c 15 = false := by simpa using hb
    have hlt : c < 32768 := by
      by_contra hge
      push_neg at hge
      rw [(testBit_15_iff h).mpr hge] at hb'
      exact Bool.noConfusion hb'
    rw [hb']
    simp only [Bool.false_eq_true, if_false]
    have hm : c * 2 % 65536 = c * 2 := by omega
    rw [hm]
    have hev : ¬ (c * 2 % 2 = 1) := by omega
    rw [if_neg hev]
    omega

theorem crcRound_injOn {c₁ c₂ : Nat} (h₁ : c₁ < 65536) (h₂ : c₂ < 65536)
    (h : crcRound c₁ = crcRound c₂) : c₁ = c₂ := by
  have := roundInv_crcRound h₁
  rw [h, roundInv_crcRound h₂] at this
  omega

theorem crcRounds_lt (n : Nat) {c : Nat} (h : c < 65536) : crcRounds n c < 65536 := by
  induction n generalizing c with
  | zero => exact h
  | succ k ih => exact ih (crcRound_lt c)

theorem crcRounds_injOn (n : Nat) {c₁ c₂ : Nat} (h₁ : c₁ < 65536) (h₂ : c₂ < 65536)
    (h : crcRounds n c₁ = crcRounds n c₂) : c₁ = c₂ := by
  induction n generalizing c₁ c₂ with
  | zero => exact h
  | succ k ih =>
    exact crcRound_injOn h₁ h₂ (ih (crcRound_lt c₁) (crcRound_lt c₂) h)

theorem crcStep_lt (c byte : Nat) : crcStep c byte < 65536 := by
  unfold crcStep
  show crcRounds 8 _ < 65536
  unfold crcRounds
  exact crcRounds_lt 7 (crcRound_lt _)

theorem xor_cancel_right {a b n : Nat} (h : a ^^^ n = b ^^^ n) : a = b := by
  have : a ^^^ n ^^^ n = b ^^^ n ^^^ n := by rw [h]
  rwa [Nat.xor_assoc, Nat.xor_self, Nat.xor_zero, Nat.xor_assoc, Nat.xor_self,
    Nat.xor_zero] at this

theorem crcStep_injOn_state {c₁ c₂ byte : Nat} (h₁ : c₁ < 65536) (h₂ : c₂ < 65536)
    (hb : byte < 256) (h : crcStep c₁ byte = crcStep c₂ byte) : c₁ = c₂ := by
  unfold crcStep at h
  have hsh : byte <<< 8 < 65536 := by
    rw [Nat.shiftLeft_eq]
    have : (65536 : Nat) = 256 * 256 := by norm_num
    norm_num
    omega
  have e1 : c₁ ^^^ byte <<< 8 < 65536 := by
    have : (65536 : Nat) = 2 ^ 16 := by norm_num
    rw [this] at h₁ hsh ⊢
    exact Nat.xor_lt_two_pow h₁ hsh
  have e2 : c₂ ^^^ byte <<< 8 < 65536 := by
    have : (65536 : Nat) = 2 ^ 16 := by norm_num
    rw [this] at h₂ hsh ⊢
    exact Nat.xor_lt_two_pow h₂ hsh
  exact xor_cancel_right (crcRounds_injOn 8 e1 e2 h)

theorem crcStep_injOn_byte {c b₁ b₂ : Nat} (hc : c < 65536) (h₁ : b₁ < 256) (h₂ : b₂ < 256)
    (h : crcStep c b₁ = crcStep c b₂) : b₁ = b₂ := by
  unfold crcStep at h
  have hs₁ : b₁ <<< 8 < 65536 := by rw [Nat.shiftLeft_eq]; norm_num; omega
  have hs₂ : b₂ <<< 8 < 65536 := by rw [Nat.shiftLeft_eq]; norm_num; omega
  have e1 : c ^^^ b₁ <<< 8 < 65536 := by
    have h16 : (65536 : Nat) = 2 ^ 16 := by norm_num
    rw [h16] at hc hs₁ ⊢
    exact Nat.xor_lt_two_pow hc hs₁
  have e2 : c ^^^ b₂ <<< 8 < 65536 := by
    have h16 : (65536 : Nat) = 2 ^ 16 := by norm_num
    rw [h16] at hc hs₂ ⊢
    exact Nat.xor_lt_two_pow hc hs₂
  have hxor : c ^^^ b₁ <<< 8 = c ^^^ b₂ <<< 8 := crcRounds_injOn 8 e1 e2 h
  have : b₁ <<< 8 = b₂ <<< 8 := by
    have h1 : c ^^^ (c ^^^ b₁ <<< 8) = c ^^^ (c ^^^ b₂ <<< 8) := by rw [hxor]
    rwa [← Nat.xor_assoc, Nat.xor_self, Nat.zero_xor, ← Nat.xor_assoc, Nat.xor_self,
      Nat.zero_xor] at h1
  rw [Nat.shiftLeft_eq, Nat.shiftLeft_eq] at this
  norm_num at this
  omega

theorem crc_foldl_lt (bs : List Nat) {c : Nat} (h : c < 65536) :
    bs.foldl crcStep c < 65536 := by
  induction bs generalizing c with
  | nil => exact h
  | cons b rest ih => exact ih (crcStep_lt c b)

theorem crc_foldl_ne (bs : List Nat) (hbs : ∀ b ∈ bs, b < 256) {c₁ c₂ : Nat}
    (h₁ : c₁ < 65536) (h₂ : c₂ < 65536) (hne : c₁ ≠ c₂) :
    bs.foldl crcStep c₁ ≠ bs.foldl crcStep c₂ := by
  induction bs generalizing c₁ c₂ with
  | nil => exact hne
  | cons b rest ih =>
    simp only [List.foldl_cons]
    refine ih (fun x hx => hbs x (List.mem_cons_of_mem b hx))
      (crcStep_lt c₁ b) (crcStep_lt c₂ b) ?_
    intro heq
    exact hne (crcStep_injOn_state h₁ h₂ (hbs b (List.mem_cons_self b rest)) heq)

/-!
## Hexadecimal formatting: `format(crc, '04X')`
-/

theorem string_length_eq_data (s : String) : s.length = s.data.length := rfl

theorem zfill_of_ge {w : Nat} {s : String} (h : w ≤ s.length) : zfill w s = s := by
  unfold zfill
  rw [if_pos h]

theorem zfill_no_sign {w : Nat} {s : String} (hlt : s.length < w)
    (hsign : ∀ c₀ ∈ s.data.head?, c₀ ≠ '+' ∧ c₀ ≠ '-') :
    zfill w s = ⟨List.replicate (w - s.length) '0' ++ s.data⟩ := by
  unfold zfill
  rw [if_neg (by omega)]
  cases hs : s.data with
  | nil =>
    have h0 : s.length = 0 := by rw [string_length_eq_data, hs]; rfl
    simp [hs, h0]
  | cons c rest =>
    have hc := hsign c (by rw [hs]; rfl)
    simp only [hs]
    rw [if_neg (by tauto)]

theorem hexChar_injOn : ∀ a b : Fin 16, hexChar a.val = hexChar b.val → a.val = b.val := by
  decide

theorem hexChar_ne_sign : ∀ a : Fin 16, hexChar a.val ≠ '+' ∧ hexChar a.val ≠ '-' := by
  decide

/-- `hexChar` produces an uppercase hexadecimal digit. -/
def isUpperHexDigit (c : Char) : Bool :=
  c.isDigit || ('A' ≤ c && c ≤ 'F')

theorem hexChar_isUpperHexDigit : ∀ a : Fin 16, isUpperHexDigit (hexChar a.val) = true := by
  decide

theorem hexStrCore_succ (f n : Nat) (acc : List Char) :
    hexStrCore (f + 1) n acc =
      if n < 16 then hexChar n :: acc else hexStrCore f (n / 16) (hexChar (n % 16) :: acc) :=
  rfl

theorem hexStrCore_pos_base {fuel n : Nat} (hf : 0 < fuel) (hn : n < 16) (acc : List Char) :
    hexStrCore fuel n acc = hexChar n :: acc := by
  match fuel, hf with
  | f + 1, _ =>
    rw [hexStrCore_succ, if_pos hn]

theorem hexStrCore_pos_step {fuel n : Nat} (hf : 0 < fuel) (hn : 16 ≤ n) (acc : List Char) :
    hexStrCore fuel n acc = hexStrCore (fuel - 1) (n / 16) (hexChar (n % 16) :: acc) := by
  match fuel, hf with
  | f + 1, _ =>
    show hexStrCore (f + 1) n acc = hexStrCore f (n / 16) (hexChar (n % 16) :: acc)
    rw [hexStrCore_succ, if_neg (by omega)]

/-- For a 16-bit value, `format(·, '04X')` is the four nibbles in order. -/
theorem toHex4_eq_nibbles {n : Nat} (h : n < 65536) :
    zfill 4 (hexStr n) =
      ⟨[hexChar (n / 4096 % 16), hexChar (n / 256 % 16), hexChar (n / 16 % 16),
        hexChar (n % 16)]⟩ := by
  unfold hexStr
  rcases Nat.lt_or_ge n 16 with h16 | h16
  · rw [hexStrCore_pos_base (by omega) h16]
    rw [zfill_no_sign (by rw [string_length_eq_data]; simp)
      (by
        intro c₀ hc
        simp only [String.data] at hc
        simp only [List.head?, Option.mem_def, Option.some.injEq] at hc
        subst hc
        exact hexChar_ne_sign ⟨n, h16⟩)]
    have e1 : n / 4096 % 16 = 0 := by omega
    have e2 : n / 256 % 16 = 0 := by omega
    have e3 : n / 16 % 16 = 0 := by omega
    have e4 : n % 16 = n := by omega
    rw [e1, e2, e3, e4]
    rfl
  · rcases Nat.lt_or_ge n 256 with h256 | h256
    · rw [hexStrCore_pos_step (by omega) h16, hexStrCore_pos_base (by omega) (by omega)]
      rw [zfill_no_sign (by rw [string_length_eq_data]; simp)
        (by
          intro c₀ hc
          simp only [String.data] at hc
          simp only [List.head?, Option.mem_def, Option.some.injEq] at hc
          subst hc
          exact hexChar_ne_sign ⟨n / 16, by omega⟩)]
      have e1 : n / 4096 % 16 = 0 := by omega
      have e2 : n / 256 % 16 = 0 := by omega
      have e3 : n / 16 % 16 = n / 16 := by omega
      rw [e1, e2, e3]
      rfl
    · rcases Nat.lt_or_ge n 4096 with h4096 | h4096
      · rw [hexStrCore_pos_step (by omega) h16, hexStrCore_pos_step (by omega) (by omega),
          hexStrCore_pos_base (by omega) (by omega)]
        rw [zfill_no_sign (by rw [string_length_eq_data]; simp)
          (by
            intro c₀ hc
            simp only [String.data] at hc
            simp only [List.head?, Option.mem_def, Option.some.injEq] at hc
            subst hc
            exact hexChar_ne_sign ⟨n / 16 / 16, by omega⟩)]
        show (⟨['0', hexChar (n / 16 / 16), hexChar (n / 16 % 16), hexChar (n % 16)]⟩ : String) =
          ⟨[hexChar (n / 4096 % 16), hexChar (n / 256 % 16), hexChar (n / 16 % 16),
            hexChar (n % 16)]⟩
        have d1 : n / 4096 % 16 = 0 := by omega
        have d2 : n / 16 / 16 = n / 256 % 16 := by omega
        rw [d1, d2]
        rfl
      · rw [hexStrCore_pos_step (by omega) h16, hexStrCore_pos_step (by omega) (by omega),
          hexStrCore_pos_step (by omega) (by omega), hexStrCore_pos_base (by omega) (by omega)]
        rw [zfill_of_ge (by rw [string_length_eq_data]; simp)]
        have d1 : n / 16 / 16 / 16 = n / 4096 % 16 := by omega
        have d2 : n / 16 / 16 % 16 = n / 256 % 16 := by omega
        rw [d1, d2]

theorem toHex4_length {n : Nat} (h : n < 65536) : (zfill 4 (hexStr n)).length = 4 := by
  rw [toHex4_eq_nibbles h, string_length_eq_data]
  rfl

theorem toHex4_injOn {a b : Nat} (ha : a < 65536) (hb : b < 65536)
    (h : zfill 4 (hexStr a) = zfill 4 (hexStr b)) : a = b := by
  rw [toHex4_eq_nibbles ha, toHex4_eq_nibbles hb] at h
  have hl : [hexChar (a / 4096 % 16), hexChar (a / 256 % 16), hexChar (a / 16 % 16),
      hexChar (a % 16)] =
      [hexChar (b / 4096 % 16), hexChar (b / 256 % 16), hexChar (b / 16 % 16),
        hexChar (b % 16)] := congrArg String.data h
  simp only [List.cons.injEq, and_true] at hl
  obtain ⟨h1, h2, h3, h4⟩ := hl
  have e1 := hexChar_injOn ⟨a / 4096 % 16, by omega⟩ ⟨b / 4096 % 16, by omega⟩ h1
  have e2 := hexChar_injOn ⟨a / 256 % 16, by omega⟩ ⟨b / 256 % 16, by omega⟩ h2
  have e3 := hexChar_injOn ⟨a / 16 % 16, by omega⟩ ⟨b / 16 % 16, by omega⟩ h3
  have e4 := hexChar_injOn ⟨a % 16, by omega⟩ ⟨b % 16, by omega⟩ h4
  simp only at e1 e2 e3 e4
  omega

/-!
## Structure of `calculate_crc16`
-/

/-- The 16-bit register value folded over the checksummed bytes (the input
with the `"6304"` placeholder appended). -/
def crcRegister (data : String) : Nat :=
  ((data ++ "6304").data.map Char.toNat).foldl crcStep CRC_INIT_VALUE

theorem calculate_crc16_eq (data : String) :
    calculate_crc16 data = zfill 4 (hexStr (crcRegister data)) := rfl

theorem crcRegister_lt (data : String) : crcRegister data < 65536 :=
  crc_foldl_lt _ (by norm_num [CRC_INIT_VALUE])

theorem calculate_crc16_length (data : String) : (calculate_crc16 data).length = 4 := by
  rw [calculate_crc16_eq]
  exact toHex4_length (crcRegister_lt data)

set_option maxRecDepth 8000 in
/-- The register value over the stale test vector of `test_validator.py`,
computed in three chunks to keep each reduction shallow. -/
theorem crcRegister_vector :
    crcRegister "00020101021152045814530370258025960" = 0x953A := by
  have hsplit : ("00020101021152045814530370258025960" ++ "6304" : String) =
      "0002010102115" ++ ("2045814530370" ++ "2580259606304") := by rfl
  unfold crcRegister
  rw [hsplit]
  have hdata : ∀ a b : String, (a ++ b).data = a.data ++ b.data := fun a b => rfl
  rw [hdata, hdata, List.map_append, List.map_append, List.foldl_append, List.foldl_append]
  have h1 : (("0002010102115" : String).data.map Char.toNat).foldl crcStep CRC_INIT_VALUE =
      0x6F72 := by rfl
  have h2 : (("2045814530370" : String).data.map Char.toNat).foldl crcStep 0x6F72 =
      0xCDF4 := by rfl
  have h3 : (("2580259606304" : String).data.map Char.toNat).foldl crcStep 0xCDF4 =
      0x953A := by rfl
  rw [h1, h2, h3]

/-- The CRC the source actually computes on the `test_validator.py` vector. -/
theorem calculate_crc16_vector :
    calculate_crc16 "00020101021152045814530370258025960" = "953A" := by
  rw [calculate_crc16_eq, crcRegister_vector]
  rfl

/-!
## TLV encoding and the payload assembler

Data model mirroring the dictionaries handed to `generate_payload`.  Absent
dictionary keys are `Option.none`; `dict.get(k, default)` is `Option.getD`.
-/

/-- An `{"id": ..., "value": ...}` data object (`encode_nested_tlv` input). -/
structure DataObject where
  id : String
  value : String
deriving Repr, DecidableEq

/-- `SGQRGenerator.encode_tlv`: `str(tag).zfill(2) ++ str(len(value)).zfill(2)
++ value`. -/
def encode_tlv (tag value : String) : String :=
  zfill 2 tag ++ zfill 2 (toString value.length) ++ value

/-- `SGQRGenerator.encode_nested_tlv`: concatenate `encode_tlv` over the data
objects. -/
def encode_nested_tlv (data_objects : List DataObject) : String :=
  data_objects.foldl (fun result obj => result ++ encode_tlv obj.id obj.value) ""

/-- The `"sgqr_id"` sub-dictionary of the config. -/
structure SgqrIdConfig where
  sgqr_number : Option String := none
  version : Option String := none
  postal_code : Option String := none
  level : Option String := none
  unit : Option String := none
  misc : Option String := none
  revision_date : Option String := none
deriving Repr, DecidableEq

/-- `SGQRGenerator.generate_sgqr_id`.  The source defaults the revision date
to `datetime.now().strftime("%Y%m%d")`; that ambient value is the explicit
`today` parameter here. -/
def generate_sgqr_id (today : String) (sgqr_config : SgqrIdConfig) : String :=
  encode_nested_tlv
    [⟨"00", "SG.SGQR"⟩,
     ⟨"01", sgqr_config.sgqr_number.getD "250626348124"⟩,
     ⟨"02", sgqr_config.version.getD "01.0001"⟩,
     ⟨"03", sgqr_config.postal_code.getD "000000"⟩,
     ⟨"04", sgqr_config.level.getD "01"⟩,
     ⟨"05", sgqr_config.unit.getD "001"⟩,
     ⟨"06", sgqr_config.misc.getD "0000"⟩,
     ⟨"07", sgqr_config.revision_date.getD today⟩]

/-- A `{"id": ..., "value": ...}` member of a payment system's `"fields"`
list (both keys are accessed unconditionally by the source). -/
structure PaymentField where
  id : String
  value : String
deriving Repr, DecidableEq

/-- One entry of the config's `"payment_systems"` list.
`global_identifier` is accessed with `[...]` (mandatory); `fields` with
`.get(..., [])`; `preferred_id` with `.get(...)`. -/
structure PaymentSystem where
  global_identifier : String
  fields : List PaymentField := []
  preferred_id : Option String := none
deriving Repr, DecidableEq

/-- `SGQRGenerator.generate_payment_system`: sub-tag `"00"` carries the
global identifier, followed by the caller-supplied fields in order. -/
def generate_payment_system (payment_system : PaymentSystem) : String :=
  encode_nested_tlv
    (⟨"00", payment_system.global_identifier⟩ ::
      payment_system.fields.map fun f => ⟨f.id, f.value⟩)

/-- An entry of the list form of `"additional_data"`: ids and values are read
with `.get` and may be absent. -/
structure AdditionalListField where
  id : Option String := none
  value : Option String := none
deriving Repr, DecidableEq

/-- The `"additional_data"` config entry: either a keyed mapping (association
list with the distinct keys of the Python dict; values may be `None`) or an
ordered list of sub-fields.  Any other shape is ignored by the source and is
modelled as `Option.none` at the use site. -/
inductive AdditionalData where
  | dict (entries : List (String × Option String))
  | list (entries : List AdditionalListField)
deriving Repr, DecidableEq

/-- `valid_additional_data_ids = {f"{i:02d}" for i in range(1, 10)}`. -/
def valid_additional_data_ids : List String :=
  (List.range' 1 9).map fun i => zfill 2 (toString i)

/-- The `(normalized_id, str(field_value))` pairs accepted by step 12 of
`generate_payload`: dict keys are iterated in sorted order, ids are
zero-filled to two digits and filtered against the valid range, and `None`
or empty values are skipped.  The emitted block is the concatenation of
`encode_tlv` over exactly these pairs, in this order. -/
def additionalDataFields : Option AdditionalData → List (String × String)
  | none => []
  | some (.dict entries) =>
    ((entries.map Prod.fst).mergeSort fun a b => decide (a ≤ b)).filterMap fun field_id =>
      let normalized_id := zfill 2 field_id
      if normalized_id ∈ valid_additional_data_ids then
        match (entries.lookup field_id).join with
        | none => none
        | some v => if v = "" then none else some (normalized_id, v)
      else none
  | some (.list fields) =>
    fields.filterMap fun field =>
      let field_id := zfill 2 (field.id.getD "")
      if field_id ∈ valid_additional_data_ids then
        match field.value with
        | none => none
        | some v => if v = "" then none else some (field_id, v)
      else none

/-- The complete configuration dictionary taken by `generate_payload`. -/
structure PayloadConfig where
  initiation_method : Option String := none
  payment_systems : List PaymentSystem := []
  sgqr_id : SgqrIdConfig := {}
  merchant_category_code : Option String := none
  currency : Option String := none
  amount : Option String := none
  country_code : Option String := none
  merchant_name : Option String := none
  merchant_city : Option String := none
  merchant_postal_code : Option String := none
  additional_data : Option AdditionalData := none
deriving Repr, DecidableEq

/-- Step 3 of `generate_payload` (the `for payment_system in ...` loop):
threads the accumulated payload and `next_payment_id` through the list,
assigning `preferred_id` when given and the sequential id otherwise, and
advancing the counter exactly when the used id equals its string form. -/
def paymentSystemsFold : List PaymentSystem → String → Nat → String × Nat
  | [], payload, next_payment_id => (payload, next_payment_id)
  | payment_system :: rest, payload, next_payment_id =>
    let payment_id := payment_system.preferred_id.getD (toString next_payment_id)
    let payment_data := generate_payment_system payment_system
    let payload := payload ++ encode_tlv payment_id payment_data
    let next_payment_id :=
      if payment_id = toString next_payment_id then next_payment_id + 1 else next_payment_id
    paymentSystemsFold rest payload next_payment_id

/-- Steps 1–13 of `SGQRGenerator.generate_payload`: everything before the CRC
field is appended. -/
def payloadBody (today : String) (config : PayloadConfig) : String :=
  let payload := ""
  let payload := payload ++ encode_tlv "00" "01"
  let initiation_method := config.initiation_method.getD "11"
  let payload := payload ++ encode_tlv "01" initiation_method
  let payload := (paymentSystemsFold config.payment_systems payload 26).1
  let sgqr_id_data := generate_sgqr_id today config.sgqr_id
  let payload := payload ++ encode_tlv "51" sgqr_id_data
  let mcc := config.merchant_category_code.getD "0000"
  let payload := payload ++ encode_tlv "52" mcc
  let currency := config.currency.getD "702"
  let payload := payload ++ encode_tlv "53" currency
  let payload :=
    match config.amount with
    | some amount => payload ++ encode_tlv "54" amount
    | none => payload
  let country := config.country_code.getD "SG"
  let payload := payload ++ encode_tlv "58" country
  let merchant_name := config.merchant_name.getD "MERCHANT"
  let payload := payload ++ encode_tlv "59" merchant_name
  let merchant_city := config.merchant_city.getD "Singapore"
  let payload := payload ++ encode_tlv "60" merchant_city
  let payload :=
    match config.merchant_postal_code with
    | some merchant_postal_code => payload ++ encode_tlv "61" merchant_postal_code
    | none => payload
  let additional_data_value :=
    (additionalDataFields config.additional_data).foldl
      (fun acc p => acc ++ encode_tlv p.1 p.2) ""
  let payload :=
    if additional_data_value ≠ "" then payload ++ encode_tlv "62" additional_data_value
    else payload
  let payload :=
    payload ++
      encode_tlv "64"
        (encode_nested_tlv [⟨"00", "EN"⟩, ⟨"01", config.merchant_name.getD "MERCHANT"⟩])
  payload

/-- `SGQRGenerator.generate_payload`: the body followed by step 14, the CRC
field computed over the body. -/
def generate_payload (today : String) (config : PayloadConfig) : String :=
  let payload := payloadBody today config
  let crc := calculate_crc16 payload
  payload ++ encode_tlv "63" crc

/-!
## The parser: `SGQRGenerator.parse_payload` and `get_tag_name`
-/

/-- `TOP_LEVEL_TAG_NAMES` class attribute. -/
def TOP_LEVEL_TAG_NAMES : List (String × String) :=
  [("00", "Payload Format Indicator"),
   ("01", "Point of Initiation Method"),
   ("51", "SGQR ID"),
   ("52", "Merchant Category Code"),
   ("53", "Transaction Currency"),
   ("54", "Transaction Amount"),
   ("55", "Tip or Convenience Indicator"),
   ("56", "Value of Convenience Fee Fixed"),
   ("57", "Value of Convenience Fee Percentage"),
   ("58", "Country Code"),
   ("59", "Merchant Name"),
   ("60", "Merchant City"),
   ("61", "Postal Code"),
   ("62", "Additional Data Field Template"),
   ("63", "CRC"),
   ("64", "Merchant Information - Language Template")]

/-- `MERCHANT_ACCOUNT_TAGS = {f"{i:02d}" for i in range(26, 46)}`. -/
def MERCHANT_ACCOUNT_TAGS : List String :=
  (List.range' 26 20).map fun i => zfill 2 (toString i)

/-- `SGQR_ID_SUBTAG_NAMES` class attribute. -/
def SGQR_ID_SUBTAG_NAMES : List (String × String) :=
  [("00", "SGQR Globally Unique Identifier"),
   ("01", "SGQR ID Number"),
   ("02", "SGQR Version"),
   ("03", "Merchant Postal Code"),
   ("04", "Merchant Level"),
   ("05", "Merchant Unit"),
   ("06", "Miscellaneous"),
   ("07", "Revision Date")]

/-- `ADDITIONAL_DATA_SUBTAG_NAMES` class attribute. -/
def ADDITIONAL_DATA_SUBTAG_NAMES : List (String × String) :=
  [("01", "Bill Number"),
   ("02", "Mobile Number"),
   ("03", "Store Label"),
   ("04", "Loyalty Number"),
   ("05", "Reference Label"),
   ("06", "Customer Label"),
   ("07", "Terminal Label"),
   ("08", "Purpose of Transaction"),
   ("09", "Additional Consumer Data Request")]

/-- `MERCHANT_LANGUAGE_SUBTAG_NAMES` class attribute. -/
def MERCHANT_LANGUAGE_SUBTAG_NAMES : List (String × String) :=
  [("00", "Language Preference"),
   ("01", "Merchant Name - Alternate Language"),
   ("02", "Merchant City - Alternate Language")]

/-- `SGQRGenerator.get_tag_name`: context-sensitive display name. -/
def get_tag_name (tag : String) (parent_tag : Option String) : String :=
  match parent_tag with
  | none =>
    match TOP_LEVEL_TAG_NAMES.lookup tag with
    | some n => n
    | none =>
      if tag ∈ MERCHANT_ACCOUNT_TAGS then "Merchant Account Information (" ++ tag ++ ")"
      else "Unknown Tag " ++ tag
  | some parent =>
    if parent ∈ MERCHANT_ACCOUNT_TAGS then
      if tag = "00" then "Global Unique Identifier"
      else "Payment System Specific Data (" ++ tag ++ ")"
    else if parent = "51" then
      (SGQR_ID_SUBTAG_NAMES.lookup tag).getD ("SGQR ID Data (" ++ tag ++ ")")
    else if parent = "62" then
      (ADDITIONAL_DATA_SUBTAG_NAMES.lookup tag).getD ("Additional Data (" ++ tag ++ ")")
    else if parent = "64" then
      (MERCHANT_LANGUAGE_SUBTAG_NAMES.lookup tag).getD
        ("Merchant Information - Language (" ++ tag ++ ")")
    else (TOP_LEVEL_TAG_NAMES.lookup tag).getD ("Unknown Tag " ++ tag)

/-- The nesting classification of `parse_payload`:
`tag in self.MERCHANT_ACCOUNT_TAGS or tag in {"51", "62", "64"}`. -/
def isNestingTag (tag : String) : Bool :=
  tag ∈ MERCHANT_ACCOUNT_TAGS ∨ tag ∈ (["51", "62", "64"] : List String)

/-- A parsed data object: the dict
`{"id", "name", "length", "value"(, "dataObjects")}` built by
`parse_payload`. -/
inductive ParsedObj : Type where
  | mk (id name lengthStr value : String) (dataObjects : Option (List ParsedObj)) : ParsedObj

/-- The `"id"` entry of a parsed object. -/
def ParsedObj.id : ParsedObj → String
  | .mk i _ _ _ _ => i

/-- The `"name"` entry of a parsed object. -/
def ParsedObj.name : ParsedObj → String
  | .mk _ n _ _ _ => n

/-- The `"length"` entry of a parsed object. -/
def ParsedObj.lengthStr : ParsedObj → String
  | .mk _ _ l _ _ => l

/-- The `"value"` entry of a parsed object. -/
def ParsedObj.value : ParsedObj → String
  | .mk _ _ _ v _ => v

/-- The optional `"dataObjects"` entry of a parsed object. -/
def ParsedObj.dataObjects : ParsedObj → Option (List ParsedObj)
  | .mk _ _ _ _ d => d

/-- Python `int(payload[i+2:i+4])` on the two length-descriptor characters,
for the forms this codec itself emits: two decimal digits give the denoted
value, anything else is a conversion failure (`none`).  Python additionally
accepts whitespace- or sign-prefixed forms; a sign-prefixed (negative)
descriptor would make the source's scan loop diverge or walk backwards, and
no behaviour settled here involves those inputs. -/
def pyInt2 (c1 c2 : Char) : Option Nat :=
  if c1.isDigit ∧ c2.isDigit then some ((c1.toNat - 48) * 10 + (c2.toNat - 48)) else none

/-- The scan loop of `parse_payload`, structurally recursive on fuel so that
concrete runs reduce definitionally.  Each iteration consumes at least 4
characters and each nested descent strictly shrinks the stream, so any fuel
exceeding the stream length behaves identically (`parseFuel_irrel`).
`none` is a Python exception (the `int(...)` conversion failing); `some` is
normal return, with truncation at a field boundary or inside a declared
value ending the scan. -/
def parseFuel : Nat → List Char → Option String → Option (List ParsedObj)
  | 0, _, _ => none
  | fuel + 1, payload, parent_tag =>
    if payload.length < 4 then some []
    else
      match payload with
      | c1 :: c2 :: c3 :: c4 :: rest =>
        match pyInt2 c3 c4 with
        | none => none
        | some length =>
          if rest.length < length then some []
          else
            let tag : String := ⟨[c1, c2]⟩
            let value : String := ⟨rest.take length⟩
            let nested : Option (Option (List ParsedObj)) :=
              if isNestingTag tag then
                match parseFuel fuel (rest.take length) (some tag) with
                | none => none
                | some children => some (some children)
              else some none
            match nested with
            | none => none
            | some dataObjects =>
              match parseFuel fuel (rest.drop length) parent_tag with
              | none => none
              | some restObjs =>
                some (ParsedObj.mk tag (get_tag_name tag parent_tag)
                  (zfill 2 (toString length)) value dataObjects :: restObjs)
      | _ => none

/-- `SGQRGenerator.parse_payload`: run the scan with sufficient fuel. -/
def parse_payload (payload : String) (parent_tag : Option String) :
    Option (List ParsedObj) :=
  parseFuel (payload.length + 1) payload.data parent_tag

/-- The leaf (parent, tag, value) triples of a parsed tree: a field with
`dataObjects` contributes its children's leaves under its own tag, a field
without contributes itself under the given parent. -/
def leafTriples (parent : Option String) (objs : List ParsedObj) :
    List (Option String × String × String) :=
  match objs with
  | [] => []
  | ParsedObj.mk i _ _ v none :: rest =>
    (parent, i, v) :: leafTriples parent rest
  | ParsedObj.mk i _ _ _ (some children) :: rest =>
    leafTriples (some i) children ++ leafTriples parent rest

/-- Whether every length descriptor visited by the scan (including descents
into nesting tags) is two decimal digits: exactly the condition under which
no `int(...)` conversion in `parse_payload` raises. -/
def scanOkFuel : Nat → List Char → Bool
  | 0, _ => false
  | fuel + 1, payload =>
    if payload.length < 4 then true
    else
      match payload with
      | c1 :: c2 :: c3 :: c4 :: rest =>
        match pyInt2 c3 c4 with
        | none => false
        | some length =>
          if rest.length < length then true
          else
            (if isNestingTag ⟨[c1, c2]⟩ then scanOkFuel fuel (rest.take length) else true) &&
              scanOkFuel fuel (rest.drop length)
      | _ => false

/-- `scanOkFuel` with sufficient fuel. -/
def scanOk (payload : String) : Bool :=
  scanOkFuel (payload.length + 1) payload.data

/-!
## General string and list helpers shared by the claim proofs
-/

theorem string_ext {s t : String} (h : s.data = t.data) : s = t := by
  cases s
  cases t
  exact congrArg String.mk h

theorem string_data_append (s t : String) : (s ++ t).data = s.data ++ t.data := rfl

theorem char_toNat_injOn {a b : Char} (h : a.toNat = b.toNat) : a = b := by
  have hh := Char.ofNat_toNat a
  rw [h, Char.ofNat_toNat] at hh
  exact hh.symm

/-- Concatenation of `encode_tlv` over (tag, value) pairs; the right-recursive
normal form of the source's `payload += encode_tlv(...)` accumulation loops. -/
def concatEnc : List (String × String) → String
  | [] => ""
  | p :: rest => encode_tlv p.1 p.2 ++ concatEnc rest

theorem foldl_append_enc (pairs : List (String × String)) (acc : String) :
    pairs.foldl (fun a p => a ++ encode_tlv p.1 p.2) acc = acc ++ concatEnc pairs := by
  induction pairs generalizing acc with
  | nil => simp [concatEnc, String.append_empty]
  | cons p rest ih =>
    simp only [List.foldl_cons, concatEnc, ih, String.append_assoc]

theorem encode_nested_tlv_eq_concatEnc (objs : List DataObject) :
    encode_nested_tlv objs = concatEnc (objs.map fun o => (o.id, o.value)) := by
  unfold encode_nested_tlv
  have h : ∀ (l : List DataObject) (acc : String),
      l.foldl (fun result obj => result ++ encode_tlv obj.id obj.value) acc =
        acc ++ concatEnc (l.map fun o => (o.id, o.value)) := by
    intro l
    induction l with
    | nil => intro acc; simp [concatEnc, String.append_empty]
    | cons o rest ih =>
      intro acc
      simp only [List.foldl_cons, List.map_cons, concatEnc, ih, String.append_assoc]
  rw [h, String.empty_append]

/-!
## Claim C2 — the CRC-16 engine
-/

theorem crcRoundsAbs_eq_crcRounds (n c : Nat) : crcRoundsAbs n c = crcRounds n c := by
  induction n generalizing c with
  | zero => rfl
  | succ k ih =>
    show crcRoundsAbs k (crcRoundAbs c) = crcRounds k (crcRound c)
    rw [← crcRound_eq_crcRoundAbs]
    exact ih (crcRound c)

theorem crc16_ccitt_false_eq_foldl (bytes : List Nat) :
    crc16_ccitt_false bytes = bytes.foldl crcStep CRC_INIT_VALUE := by
  unfold crc16_ccitt_false crcStep CRC_INIT_VALUE
  congr 1
  funext crc byte
  have hb : byte <<< 8 = byte * 256 := by
    rw [Nat.shiftLeft_eq]
  simp only [crcRoundsAbs_eq_crcRounds, hb]

/-- Claim C2 (amended: the checksum of the stale `test_validator.py` vector is
`"953A"`, not the documented `"AFA5"`): for every ASCII input string,
`calculate_crc16` returns the 4-character uppercase-hexadecimal
CRC-16/CCITT-FALSE value (polynomial `0x1021`, initial register `0xFFFF`,
MSB-first, 8 shift/XOR rounds per byte, 16-bit mask, no final XOR) computed
over the input with the checksum placeholder `"6304"` appended. -/
theorem c2_crc16_algorithm (s : String) (_ascii : ∀ c ∈ s.data, c.toNat < 128) :
    calculate_crc16 s =
      zfill 4 (hexStr (crc16_ccitt_false ((s ++ "6304").data.map Char.toNat)))
    ∧ (calculate_crc16 s).length = 4
    ∧ (∀ c ∈ (calculate_crc16 s).data, isUpperHexDigit c = true)
    ∧ calculate_crc16 "00020101021152045814530370258025960" = "953A" := by
  refine ⟨?_, calculate_crc16_length s, ?_, calculate_crc16_vector⟩
  · rw [calculate_crc16_eq, crc16_ccitt_false_eq_foldl]
    rfl
  · rw [calculate_crc16_eq, toHex4_eq_nibbles (crcRegister_lt s)]
    intro c hc
    simp only [String.data, List.mem_cons, List.not_mem_nil, or_false] at hc
    rcases hc with rfl | rfl | rfl | rfl
    · exact hexChar_isUpperHexDigit ⟨_, Nat.mod_lt _ (by norm_num)⟩
    · exact hexChar_isUpperHexDigit ⟨_, Nat.mod_lt _ (by norm_num)⟩
    · exact hexChar_isUpperHexDigit ⟨_, Nat.mod_lt _ (by norm_num)⟩
    · exact hexChar_isUpperHexDigit ⟨_, Nat.mod_lt _ (by norm_num)⟩

/-- Witness for C2 at the concrete ASCII input `"0002"`. -/
theorem c2_crc16_algorithm_witness :
    (∀ c ∈ ("0002" : String).data, c.toNat < 128) ∧
      (calculate_crc16 "0002" =
          zfill 4 (hexStr (crc16_ccitt_false (("0002" ++ "6304").data.map Char.toNat)))
        ∧ (calculate_crc16 "0002").length = 4
        ∧ (∀ c ∈ (calculate_crc16 "0002").data, isUpperHexDigit c = true)
        ∧ calculate_crc16 "00020101021152045814530370258025960" = "953A") :=
  ⟨by decide, c2_crc16_algorithm "0002" (by decide)⟩

/-- Counterexample for C2 as stated: on the test payload the source computes
`"953A"`, which is not the documented expected value `"AFA5"`. -/
theorem c2_crc16_counterexample :
    calculate_crc16 "00020101021152045814530370258025960" = "953A" ∧
      ("953A" : String) ≠ "AFA5" :=
  ⟨calculate_crc16_vector, by decide⟩

/-!
## Claim C5 — no length-overflow check in `encode_tlv`
-/

/-- Claim C5 (code bug): `encode_tlv` has no overflow check.  On a
100-character value it silently returns a string whose length descriptor is
the three digits `"100"` instead of failing. -/
theorem c5_encode_tlv_overflow :
    encode_tlv "26" ⟨List.replicate 100 'A'⟩ =
      "26" ++ ("100" ++ (⟨List.replicate 100 'A'⟩ : String))
    ∧ (zfill 2 (toString (String.mk (List.replicate 100 'A')).length)).length = 3 := by
  constructor
  · decide
  · decide

/-!
## Claim C3 — the checksum field is last and covers body plus `"6304"`
-/

/-- Claim C3: every built payload decomposes as its body, then the checksum
tag-and-length `"6304"`, then the 4-hex-digit checksum value, which is the
CRC-16 register folded over exactly the body bytes followed by the `"6304"`
placeholder — the checksum's own value bytes are never checksummed. -/
theorem c3_checksum_last (today : String) (config : PayloadConfig) :
    generate_payload today config =
      payloadBody today config ++ ("6304" ++ calculate_crc16 (payloadBody today config))
    ∧ (calculate_crc16 (payloadBody today config)).length = 4
    ∧ calculate_crc16 (payloadBody today config) =
        zfill 4 (hexStr (((payloadBody today config ++ "6304").data.map Char.toNat).foldl
          crcStep CRC_INIT_VALUE)) := by
  refine ⟨?_, calculate_crc16_length _, rfl⟩
  show payloadBody today config ++
      encode_tlv "63" (calculate_crc16 (payloadBody today config)) = _
  unfold encode_tlv
  rw [calculate_crc16_length]
  have hz : zfill 2 "63" ++ zfill 2 (toString 4) = "6304" := rfl
  rw [hz]

/-!
## Claim C4 — purity of the build
-/

theorem generate_sgqr_id_const {t₁ t₂ : String} {cfg : SgqrIdConfig}
    (h : cfg.revision_date.isSome = true) :
    generate_sgqr_id t₁ cfg = generate_sgqr_id t₂ cfg := by
  cases hrev : cfg.revision_date with
  | none =>
    rw [hrev] at h
    exact absurd h (by simp)
  | some d =>
    unfold generate_sgqr_id
    rw [hrev]
    simp only [Option.getD_some]

theorem payloadBody_const {t₁ t₂ : String} {config : PayloadConfig}
    (h : config.sgqr_id.revision_date.isSome = true) :
    payloadBody t₁ config = payloadBody t₂ config := by
  unfold payloadBody
  rw [generate_sgqr_id_const h]

/-- Claim C4 (amended: for configs that supply the identifier block's revision
date): the build is a pure function of its config — the ambient current date
read by `datetime.now()` (the `today` parameter of this embedding) does not
influence the payload, so any two invocations on the same config value return
the identical string.  When the revision date is omitted, the build reads the
clock and is not a function of the config alone (see the counterexample). -/
theorem c4_build_pure (t₁ t₂ : String) (config : PayloadConfig)
    (h : config.sgqr_id.revision_date.isSome = true) :
    generate_payload t₁ config = generate_payload t₂ config := by
  unfold generate_payload
  rw [payloadBody_const h]

/-- Witness for C4 at a concrete config carrying a revision date. -/
theorem c4_build_pure_witness :
    (({ sgqr_id := { revision_date := some "20240101" } } :
        PayloadConfig).sgqr_id.revision_date.isSome = true) ∧
      generate_payload "20250101" { sgqr_id := { revision_date := some "20240101" } } =
        generate_payload "20250102" { sgqr_id := { revision_date := some "20240101" } } :=
  ⟨by decide, c4_build_pure "20250101" "20250102" _ (by decide)⟩

/-- The all-defaults config: every optional entry absent, in particular the
revision date. -/
def emptyConfig : PayloadConfig := {}

set_option maxRecDepth 8000 in
/-- Counterexample for C4 as stated: with the revision date omitted, two
invocations of the build on the very same config value — one with the ambient
date `"20250101"`, one with `"20250102"` — return different payloads. -/
theorem c4_counterexample :
    generate_payload "20250101" emptyConfig ≠ generate_payload "20250102" emptyConfig := by
  have hne : payloadBody "20250101" emptyConfig ≠ payloadBody "20250102" emptyConfig := by
    decide
  have hlen : (payloadBody "20250101" emptyConfig).data.length =
      (payloadBody "20250102" emptyConfig).data.length := by decide
  intro h
  unfold generate_payload at h
  have hd := congrArg String.data h
  rw [string_data_append, string_data_append] at hd
  exact hne (string_ext (List.append_inj hd hlen).1)

/-!
## Claim C6 — payment-system tag sequencing
-/

/-- The (assigned tag, encoded data) pairs of the payment-system loop,
threading `next_payment_id` exactly as the source does. -/
def paymentFieldPairs : Nat → List PaymentSystem → List (String × String)
  | _, [] => []
  | next_payment_id, payment_system :: rest =>
    let payment_id := payment_system.preferred_id.getD (toString next_payment_id)
    (payment_id, generate_payment_system payment_system) ::
      paymentFieldPairs
        (if payment_id = toString next_payment_id then next_payment_id + 1
         else next_payment_id) rest

theorem paymentSystemsFold_eq (systems : List PaymentSystem) (payload : String) (n : Nat) :
    (paymentSystemsFold systems payload n).1 =
      payload ++ concatEnc (paymentFieldPairs n systems) := by
  induction systems generalizing payload n with
  | nil => simp [paymentSystemsFold, paymentFieldPairs, concatEnc, String.append_empty]
  | cons ps rest ih =>
    show (paymentSystemsFold rest _ _).1 = _
    rw [ih]
    simp only [paymentFieldPairs, concatEnc, String.append_assoc]

/-- Claim C6 (amended: an entry whose preferred tag equals the decimal string
of the current counter value does advance the counter): entries without a
preferred tag receive strictly sequential tags counting up from the base
(26 at the top of the loop); an entry with a preferred tag consumes that tag,
and the counter advances for that entry exactly when the preferred tag equals
the string form of the current counter — otherwise it is undisturbed.  The
third conjunct ties the pair list to the payload accumulated by the source's
loop. -/
theorem c6_tag_sequencing :
    (∀ systems : List PaymentSystem, (∀ ps ∈ systems, ps.preferred_id = none) →
      ∀ n : Nat, (paymentFieldPairs n systems).map Prod.fst =
        (List.range systems.length).map fun k => toString (n + k))
    ∧ (∀ (n : Nat) (ps : PaymentSystem) (rest : List PaymentSystem) (t : String),
        ps.preferred_id = some t →
          paymentFieldPairs n (ps :: rest) =
            (t, generate_payment_system ps) ::
              paymentFieldPairs (if t = toString n then n + 1 else n) rest)
    ∧ (∀ (systems : List PaymentSystem) (payload : String) (n : Nat),
        (paymentSystemsFold systems payload n).1 =
          payload ++ concatEnc (paymentFieldPairs n systems)) := by
  refine ⟨?_, ?_, paymentSystemsFold_eq⟩
  · intro systems
    induction systems with
    | nil => intro _ n; rfl
    | cons ps rest ih =>
      intro hnone n
      have hps : ps.preferred_id = none := hnone ps (List.mem_cons_self ps rest)
      have hrest : ∀ q ∈ rest, q.preferred_id = none := fun q hq =>
        hnone q (List.mem_cons_of_mem ps hq)
      simp only [paymentFieldPairs, hps, Option.getD_none, eq_self_iff_true, if_true,
        List.map_cons, List.length_cons]
      rw [ih hrest (n + 1)]
      rw [List.range_succ_eq_map, List.map_cons, List.map_map]
      refine congrArg₂ List.cons (by rw [Nat.add_zero]) ?_
      apply List.map_congr_left
      intro k _
      show toString (n + 1 + k) = toString (n + (k + 1))
      rw [Nat.add_assoc, Nat.add_comm 1 k]
  · intro n ps rest t hps
    simp only [paymentFieldPairs, hps, Option.getD_some]

/-- Payment-system entries used by the C6 witness and counterexample. -/
def psPlainA : PaymentSystem := { global_identifier := "a" }

/-- A second plain payment-system entry. -/
def psPlainB : PaymentSystem := { global_identifier := "b" }

/-- A third plain payment-system entry. -/
def psPlainC : PaymentSystem := { global_identifier := "c" }

/-- An entry with preferred tag `"30"`. -/
def psPreferred30 : PaymentSystem := { global_identifier := "d", preferred_id := some "30" }

/-- An entry whose preferred tag `"26"` equals the loop's starting counter. -/
def psPreferred26 : PaymentSystem := { global_identifier := "a", preferred_id := some "26" }

/-- Witness for C6: three plain entries get 26, 27, 28, and a preferred tag
is consumed as given. -/
theorem c6_tag_sequencing_witness :
    ((∀ ps ∈ [psPlainA, psPlainB, psPlainC], ps.preferred_id = none) ∧
      (paymentFieldPairs 26 [psPlainA, psPlainB, psPlainC]).map Prod.fst =
        (List.range 3).map fun k => toString (26 + k)) ∧
    (psPreferred30.preferred_id = some "30" ∧
      paymentFieldPairs 26 [psPreferred30] =
        [("30", generate_payment_system psPreferred30)]) :=
  ⟨⟨by decide, c6_tag_sequencing.1 _ (by decide) 26⟩,
   ⟨rfl, by
      rw [c6_tag_sequencing.2.1 26 psPreferred30 [] "30" rfl]
      rfl⟩⟩

/-- Counterexample for C6 as stated: an entry whose preferred tag `"26"`
coincides with the current counter advances the counter, so the following
plain entry receives `"27"`, not the `"26"` an undisturbed counter would
dictate. -/
theorem c6_counterexample :
    (paymentFieldPairs 26 [psPreferred26, psPlainB]).map Prod.fst = ["26", "27"] ∧
      (["26", "27"] : List String) ≠ ["26", "26"] := by
  constructor
  · rfl
  · decide

/-!
## Claim C9 — CRC determinism and single-byte sensitivity
-/

theorem crcRegister_decompose (pre suf : List Char) (x : Char) :
    crcRegister ⟨pre ++ x :: suf⟩ =
      (suf.map Char.toNat ++ ("6304" : String).data.map Char.toNat).foldl crcStep
        (crcStep ((pre.map Char.toNat).foldl crcStep CRC_INIT_VALUE) x.toNat) := by
  unfold crcRegister
  have h1 : ((⟨pre ++ x :: suf⟩ : String) ++ "6304").data =
      pre ++ x :: (suf ++ ("6304" : String).data) := by
    rw [string_data_append]
    show (pre ++ x :: suf) ++ ("6304" : String).data = _
    rw [List.append_assoc]
    rfl
  rw [h1, List.map_append, List.map_cons, List.map_append, List.foldl_append,
    List.foldl_cons]

/-- Claim C9: `calculate_crc16` is deterministic — equal character (byte)
sequences give equal results — and on ASCII inputs, changing the single byte
at any position (any prefix/suffix split) to any different byte changes the
4-hex-digit result. -/
theorem c9_crc_sensitivity :
    (∀ s t : String, s.data = t.data → calculate_crc16 s = calculate_crc16 t)
    ∧ ∀ (pre suf : List Char) (a b : Char),
        (∀ c ∈ pre, c.toNat < 128) → (∀ c ∈ suf, c.toNat < 128) →
        a.toNat < 128 → b.toNat < 128 → a ≠ b →
        calculate_crc16 ⟨pre ++ a :: suf⟩ ≠ calculate_crc16 ⟨pre ++ b :: suf⟩ := by
  constructor
  · intro s t h
    rw [string_ext h]
  · intro pre suf a b _hpre hsuf ha hb hne heq
    rw [calculate_crc16_eq, calculate_crc16_eq] at heq
    have hreg := toHex4_injOn (crcRegister_lt _) (crcRegister_lt _) heq
    rw [crcRegister_decompose, crcRegister_decompose] at hreg
    have hR : (pre.map Char.toNat).foldl crcStep CRC_INIT_VALUE < 65536 :=
      crc_foldl_lt _ (by norm_num [CRC_INIT_VALUE])
    have hstep : crcStep ((pre.map Char.toNat).foldl crcStep CRC_INIT_VALUE) a.toNat ≠
        crcStep ((pre.map Char.toNat).foldl crcStep CRC_INIT_VALUE) b.toNat := by
      intro he
      exact hne (char_toNat_injOn (crcStep_injOn_byte hR (by omega) (by omega) he))
    have h6304 : ∀ c ∈ ("6304" : String).data, c.toNat < 256 := by decide
    refine crc_foldl_ne _ ?_ (crcStep_lt _ _) (crcStep_lt _ _) hstep hreg
    intro byt hbyt
    rcases List.mem_append.mp hbyt with hmem | hmem
    · obtain ⟨c, hc, rfl⟩ := List.mem_map.mp hmem
      have := hsuf c hc
      omega
    · obtain ⟨c, hc, rfl⟩ := List.mem_map.mp hmem
      exact h6304 c hc

/-- Witness for C9 at the one-character inputs `"0"` and `"1"`. -/
theorem c9_crc_sensitivity_witness :
    ((∀ c ∈ ([] : List Char), c.toNat < 128) ∧ (∀ c ∈ ([] : List Char), c.toNat < 128) ∧
      ('0' : Char).toNat < 128 ∧ ('1' : Char).toNat < 128 ∧ ('0' : Char) ≠ '1') ∧
      calculate_crc16 ⟨[] ++ '0' :: []⟩ ≠ calculate_crc16 ⟨[] ++ '1' :: []⟩ :=
  ⟨⟨by decide, by decide, by decide, by decide, by decide⟩,
    c9_crc_sensitivity.2 [] [] '0' '1' (by decide) (by decide) (by decide) (by decide)
      (by decide)⟩

/-!
## Scan-loop fuel elimination

`parseFuel` ignores its fuel as long as the fuel exceeds the stream length,
because every iteration consumes at least four characters and every nested
descent strictly shrinks the stream. -/

theorem parseFuel_mono :
    ∀ (N : Nat) (cs : List Char), cs.length ≤ N → ∀ (f₁ f₂ : Nat) (parent : Option String),
      cs.length < f₁ → cs.length < f₂ → parseFuel f₁ cs parent = parseFuel f₂ cs parent := by
  intro N
  induction N with
  | zero =>
    intro cs hcs f₁ f₂ parent h₁ h₂
    have hnil : cs = [] := List.length_eq_zero.mp (Nat.le_zero.mp hcs)
    subst hnil
    obtain ⟨g₁, rfl⟩ : ∃ g, f₁ = g + 1 := ⟨f₁ - 1, by omega⟩
    obtain ⟨g₂, rfl⟩ : ∃ g, f₂ = g + 1 := ⟨f₂ - 1, by omega⟩
    simp [parseFuel]
  | succ N IH =>
    intro cs hcs f₁ f₂ parent h₁ h₂
    obtain ⟨g₁, rfl⟩ : ∃ g, f₁ = g + 1 := ⟨f₁ - 1, by omega⟩
    obtain ⟨g₂, rfl⟩ : ∃ g, f₂ = g + 1 := ⟨f₂ - 1, by omega⟩
    by_cases h4 : cs.length < 4
    · simp only [parseFuel, if_pos h4]
    · match cs, h4 with
      | [], h4 => exact absurd (by simp) h4
      | [c1], h4 => exact absurd (by simp) h4
      | [c1, c2], h4 => exact absurd (by simp) h4
      | [c1, c2, c3], h4 => exact absurd (by simp) h4
      | c1 :: c2 :: c3 :: c4 :: rest, h4 =>
        simp only [List.length_cons] at hcs h₁ h₂
        have hshort : ¬ (rest.length + 1 + 1 + 1 + 1 < 4) := by omega
        simp only [parseFuel, List.length_cons, if_neg hshort]
        cases hp : pyInt2 c3 c4 with
        | none => simp [hp]
        | some n =>
          simp only [hp]
          by_cases hr : rest.length < n
          · simp only [if_pos hr]
          · simp only [if_neg hr]
            have htN : (rest.take n).length ≤ N := by
              rw [List.length_take]
              omega
            have hdN : (rest.drop n).length ≤ N := by
              rw [List.length_drop]
              omega
            rw [IH (rest.take n) htN g₁ g₂ (some ⟨[c1, c2]⟩)
                (by rw [List.length_take]; omega) (by rw [List.length_take]; omega),
              IH (rest.drop n) hdN g₁ g₂ parent
                (by rw [List.length_drop]; omega) (by rw [List.length_drop]; omega)]

/-- `parseFuel` with the canonical sufficient fuel. -/
def parseAll (cs : List Char) (parent : Option String) : Option (List ParsedObj) :=
  parseFuel (cs.length + 1) cs parent

theorem parse_payload_eq_parseAll (s : String) (parent : Option String) :
    parse_payload s parent = parseAll s.data parent := rfl

theorem parseFuel_eq_parseAll {fuel : Nat} {cs : List Char} (parent : Option String)
    (h : cs.length < fuel) : parseFuel fuel cs parent = parseAll cs parent :=
  parseFuel_mono cs.length cs (Nat.le_refl _) fuel (cs.length + 1) parent h (Nat.lt_succ_self _)

theorem parseFuel_succ_eq (g : Nat) (payload : List Char) (parent : Option String) :
    parseFuel (g + 1) payload parent =
      if payload.length < 4 then some []
      else
        match payload with
        | c1 :: c2 :: c3 :: c4 :: rest =>
          match pyInt2 c3 c4 with
          | none => none
          | some length =>
            if rest.length < length then some []
            else
              let tag : String := ⟨[c1, c2]⟩
              let value : String := ⟨rest.take length⟩
              let nested : Option (Option (List ParsedObj)) :=
                if isNestingTag tag then
                  match parseFuel g (rest.take length) (some tag) with
                  | none => none
                  | some children => some (some children)
                else some none
              match nested with
              | none => none
              | some dataObjects =>
                match parseFuel g (rest.drop length) parent with
                | none => none
                | some restObjs =>
                  some (ParsedObj.mk tag (get_tag_name tag parent)
                    (zfill 2 (toString length)) value dataObjects :: restObjs)
        | _ => none := rfl

theorem cons4_not_short (c1 c2 c3 c4 : Char) (rest : List Char) :
    ¬ (c1 :: c2 :: c3 :: c4 :: rest).length < 4 := by
  simp

theorem parseAll_short {cs : List Char} (parent : Option String) (h : cs.length < 4) :
    parseAll cs parent = some [] := by
  unfold parseAll
  rw [parseFuel_succ_eq, if_pos h]

theorem parseAll_int_fail (c1 c2 c3 c4 : Char) (rest : List Char) (parent : Option String)
    (hp : pyInt2 c3 c4 = none) :
    parseAll (c1 :: c2 :: c3 :: c4 :: rest) parent = none := by
  unfold parseAll
  rw [parseFuel_succ_eq, if_neg (cons4_not_short c1 c2 c3 c4 rest)]
  simp only [hp]

theorem parseAll_trunc (c1 c2 c3 c4 : Char) (rest : List Char) (parent : Option String)
    {n : Nat} (hp : pyInt2 c3 c4 = some n) (hr : rest.length < n) :
    parseAll (c1 :: c2 :: c3 :: c4 :: rest) parent = some [] := by
  unfold parseAll
  rw [parseFuel_succ_eq, if_neg (cons4_not_short c1 c2 c3 c4 rest)]
  simp only [hp, if_pos hr]

theorem parseAll_field_leaf (c1 c2 c3 c4 : Char) (rest : List Char) (parent : Option String)
    {n : Nat} (hp : pyInt2 c3 c4 = some n) (hr : ¬ rest.length < n)
    (hnest : isNestingTag ⟨[c1, c2]⟩ = false) :
    parseAll (c1 :: c2 :: c3 :: c4 :: rest) parent =
      (parseAll (rest.drop n) parent).map fun objs =>
        ParsedObj.mk ⟨[c1, c2]⟩ (get_tag_name ⟨[c1, c2]⟩ parent) (zfill 2 (toString n))
          ⟨rest.take n⟩ none :: objs := by
  show parseFuel ((c1 :: c2 :: c3 :: c4 :: rest).length + 1) (c1 :: c2 :: c3 :: c4 :: rest)
      parent = _
  rw [parseFuel_succ_eq, if_neg (cons4_not_short c1 c2 c3 c4 rest)]
  simp only [hp, if_neg hr, hnest, Bool.false_eq_true, if_false]
  rw [parseFuel_eq_parseAll parent (by simp [List.length_drop]; omega)]
  cases parseAll (rest.drop n) parent with
  | none => rfl
  | some objs => rfl

theorem parseAll_field_nested (c1 c2 c3 c4 : Char) (rest : List Char) (parent : Option String)
    {n : Nat} (hp : pyInt2 c3 c4 = some n) (hr : ¬ rest.length < n)
    (hnest : isNestingTag ⟨[c1, c2]⟩ = true) :
    parseAll (c1 :: c2 :: c3 :: c4 :: rest) parent =
      match parseAll (rest.take n) (some ⟨[c1, c2]⟩) with
      | none => none
      | some children =>
        (parseAll (rest.drop n) parent).map fun objs =>
          ParsedObj.mk ⟨[c1, c2]⟩ (get_tag_name ⟨[c1, c2]⟩ parent) (zfill 2 (toString n))
            ⟨rest.take n⟩ (some children) :: objs := by
  show parseFuel ((c1 :: c2 :: c3 :: c4 :: rest).length + 1) (c1 :: c2 :: c3 :: c4 :: rest)
      parent = _
  rw [parseFuel_succ_eq, if_neg (cons4_not_short c1 c2 c3 c4 rest)]
  simp only [hp, if_neg hr, hnest, if_true]
  rw [parseFuel_eq_parseAll (some ⟨[c1, c2]⟩) (by simp [List.length_take]; omega),
    parseFuel_eq_parseAll parent (by simp [List.length_drop]; omega)]
  cases parseAll (rest.take n) (some ⟨[c1, c2]⟩) with
  | none => rfl
  | some children =>
    cases parseAll (rest.drop n) parent with
    | none => rfl
    | some objs => rfl

/-!
## Parsing back what `encode_tlv` emits
-/

theorem zfill_length (w : Nat) (s : String) : (zfill w s).length = max w s.length := by
  unfold zfill
  by_cases h : w ≤ s.length
  · rw [if_pos h]
    omega
  · rw [if_neg h]
    cases hs : s.data with
    | nil =>
      have h0 : s.length = 0 := by
        rw [string_length_eq_data, hs]
        rfl
      rw [string_length_eq_data]
      simp [h0]
    | cons c rest =>
      have hc : s.length = rest.length + 1 := by
        rw [string_length_eq_data, hs]
        rfl
      simp only [hs]
      by_cases hsign : c = '+' ∨ c = '-'
      · rw [if_pos hsign, string_length_eq_data]
        simp
        omega
      · rw [if_neg hsign, string_length_eq_data]
        simp [hs]
        omega

theorem zfill_length_ge (w : Nat) (s : String) : w ≤ (zfill w s).length := by
  rw [zfill_length]
  omega

theorem zfill_of_eq_two {s : String} (h : s.length = 2) : zfill 2 s = s :=
  zfill_of_ge (by omega)

theorem encode_tlv_zfill (tag value : String) :
    encode_tlv (zfill 2 tag) value = encode_tlv tag value := by
  unfold encode_tlv
  rw [zfill_of_ge (zfill_length_ge 2 tag)]

/-- Whether the two-digit descriptor emitted for a value length parses back to
that length. -/
def descriptorOkB (n : Nat) : Bool :=
  match (zfill 2 (toString n)).data with
  | [d1, d2] => pyInt2 d1 d2 = some n
  | _ => false

theorem descriptorOk_of_le99 {n : Nat} (h : n ≤ 99) : descriptorOkB n = true := by
  have hall : ∀ m : Fin 100, descriptorOkB m.val = true := by decide
  exact hall ⟨n, by omega⟩

theorem toString_length_le99 {n : Nat} (h : n ≤ 99) : (toString n).length ≤ 2 := by
  have hall : ∀ m : Fin 100, (toString m.val).length ≤ 2 := by decide
  exact hall ⟨n, by omega⟩

theorem data_of_length_two {s : String} (h : s.length = 2) : ∃ a b, s.data = [a, b] := by
  rcases s with ⟨l⟩
  rw [string_length_eq_data] at h
  match l, h with
  | [a, b], _ => exact ⟨a, b, rfl⟩

theorem descriptor_length_two (n : Nat) (h : n ≤ 99) :
    (zfill 2 (toString n)).length = 2 := by
  rw [zfill_length]
  have := toString_length_le99 h
  omega

theorem parseAll_encode_leaf (tag value : String) (suffix : List Char)
    (parent : Option String) (htag : tag.length = 2) (hnest : isNestingTag tag = false)
    (hval : value.length ≤ 99) :
    parseAll ((encode_tlv tag value).data ++ suffix) parent =
      (parseAll suffix parent).map fun objs =>
        ParsedObj.mk tag (get_tag_name tag parent) (zfill 2 (toString value.length))
          value none :: objs := by
  obtain ⟨t1, t2, htd⟩ := data_of_length_two htag
  obtain ⟨d1, d2, hdd⟩ := data_of_length_two (descriptor_length_two value.length hval)
  have hdesc := descriptorOk_of_le99 hval
  unfold descriptorOkB at hdesc
  rw [hdd] at hdesc
  have hpy : pyInt2 d1 d2 = some value.length := of_decide_eq_true hdesc
  have hstream : (encode_tlv tag value).data ++ suffix =
      t1 :: t2 :: d1 :: d2 :: (value.data ++ suffix) := by
    unfold encode_tlv
    rw [zfill_of_eq_two htag]
    rw [string_data_append, string_data_append, htd, hdd]
    rfl
  rw [hstream]
  have htag' : (⟨[t1, t2]⟩ : String) = tag := (string_ext (by rw [htd])).symm
  have hvlen : value.data.length = value.length := rfl
  have hr : ¬ (value.data ++ suffix).length < value.length := by
    rw [List.length_append]
    omega
  rw [parseAll_field_leaf t1 t2 d1 d2 (value.data ++ suffix) parent hpy hr
    (by rw [htag']; exact hnest)]
  rw [htag']
  have htake : (value.data ++ suffix).take value.length = value.data := by
    conv_lhs => rw [← hvlen]
    exact List.take_left value.data suffix
  have hdrop : (value.data ++ suffix).drop value.length = suffix := by
    conv_lhs => rw [← hvlen]
    exact List.drop_left value.data suffix
  rw [htake, hdrop]

theorem parseAll_encode_nested (tag value : String) (suffix : List Char)
    (parent : Option String) (htag : tag.length = 2) (hnest : isNestingTag tag = true)
    (hval : value.length ≤ 99) :
    parseAll ((encode_tlv tag value).data ++ suffix) parent =
      match parseAll value.data (some tag) with
      | none => none
      | some children =>
        (parseAll suffix parent).map fun objs =>
          ParsedObj.mk tag (get_tag_name tag parent) (zfill 2 (toString value.length))
            value (some children) :: objs := by
  obtain ⟨t1, t2, htd⟩ := data_of_length_two htag
  obtain ⟨d1, d2, hdd⟩ := data_of_length_two (descriptor_length_two value.length hval)
  have hdesc := descriptorOk_of_le99 hval
  unfold descriptorOkB at hdesc
  rw [hdd] at hdesc
  have hpy : pyInt2 d1 d2 = some value.length := of_decide_eq_true hdesc
  have hstream : (encode_tlv tag value).data ++ suffix =
      t1 :: t2 :: d1 :: d2 :: (value.data ++ suffix) := by
    unfold encode_tlv
    rw [zfill_of_eq_two htag]
    rw [string_data_append, string_data_append, htd, hdd]
    rfl
  rw [hstream]
  have htag' : (⟨[t1, t2]⟩ : String) = tag := (string_ext (by rw [htd])).symm
  have hvlen : value.data.length = value.length := rfl
  have hr : ¬ (value.data ++ suffix).length < value.length := by
    rw [List.length_append]
    omega
  rw [parseAll_field_nested t1 t2 d1 d2 (value.data ++ suffix) parent hpy hr
    (by rw [htag']; exact hnest)]
  rw [htag']
  have htake : (value.data ++ suffix).take value.length = value.data := by
    conv_lhs => rw [← hvlen]
    exact List.take_left value.data suffix
  have hdrop : (value.data ++ suffix).drop value.length = suffix := by
    conv_lhs => rw [← hvlen]
    exact List.drop_left value.data suffix
  rw [htake, hdrop]

/-!
## Sequences of leaf fields
-/

theorem leafTriples_nil (parent : Option String) : leafTriples parent [] = [] := by
  simp [leafTriples]

theorem leafTriples_cons_leaf (parent : Option String) (i nm ln v : String)
    (rest : List ParsedObj) :
    leafTriples parent (ParsedObj.mk i nm ln v none :: rest) =
      (parent, i, v) :: leafTriples parent rest := by
  simp [leafTriples]

theorem leafTriples_cons_node (parent : Option String) (i nm ln v : String)
    (ch : List ParsedObj) (rest : List ParsedObj) :
    leafTriples parent (ParsedObj.mk i nm ln v (some ch) :: rest) =
      leafTriples (some i) ch ++ leafTriples parent rest := by
  simp [leafTriples]

/-- Well-formedness of a run of sibling leaf fields: two-character
non-nesting tags, values that fit a two-digit length. -/
@[reducible] def LeafChunksOk (pairs : List (String × String)) : Prop :=
  ∀ p ∈ pairs, p.1.length = 2 ∧ isNestingTag p.1 = false ∧ p.2.length ≤ 99

/-- The parsed object a well-formed leaf field decodes to. -/
def leafObjOf (parent : Option String) (p : String × String) : ParsedObj :=
  ParsedObj.mk p.1 (get_tag_name p.1 parent) (zfill 2 (toString p.2.length)) p.2 none

theorem parseAll_concatEnc_leaves (pairs : List (String × String)) (parent : Option String)
    (h : LeafChunksOk pairs) :
    parseAll (concatEnc pairs).data parent = some (pairs.map (leafObjOf parent)) := by
  induction pairs with
  | nil =>
    show parseAll ("" : String).data parent = some []
    exact parseAll_short parent (by decide)
  | cons p rest ih =>
    have hp := h p (List.mem_cons_self p rest)
    have hrest : LeafChunksOk rest := fun q hq => h q (List.mem_cons_of_mem p hq)
    show parseAll (encode_tlv p.1 p.2 ++ concatEnc rest).data parent = _
    rw [string_data_append]
    rw [parseAll_encode_leaf p.1 p.2 _ parent hp.1 hp.2.1 hp.2.2]
    rw [ih hrest]
    rfl

theorem leafTriples_map_leafObj (parent : Option String) (pairs : List (String × String)) :
    leafTriples parent (pairs.map (leafObjOf parent)) =
      pairs.map fun p => (parent, p.1, p.2) := by
  induction pairs with
  | nil => simp [leafTriples_nil]
  | cons p rest ih =>
    simp only [List.map_cons, leafObjOf, leafTriples_cons_leaf, ih]

/-!
## Claim C8 — truncation is end-of-stream, not an error
-/

/-- Claim C8: whenever fewer than 4 characters remain at a field boundary, or
fewer characters remain than the current field's declared length, the scan
stops and returns normally with the fields parsed so far (the third conjunct
shows a complete leading field being kept when the remainder is truncated):
truncation is treated as end-of-stream, never a hard failure. -/
theorem c8_truncation (payload : String) (parent : Option String) :
    (payload.length < 4 → parse_payload payload parent = some [])
    ∧ (∀ (c1 c2 c3 c4 : Char) (rest : List Char) (n : Nat),
        payload.data = c1 :: c2 :: c3 :: c4 :: rest → pyInt2 c3 c4 = some n →
        rest.length < n → parse_payload payload parent = some [])
    ∧ (∀ tag value : String, tag.length = 2 → isNestingTag tag = false →
        value.length ≤ 99 → ∀ short : String, short.length < 4 →
        parse_payload (encode_tlv tag value ++ short) parent =
          some [ParsedObj.mk tag (get_tag_name tag parent)
            (zfill 2 (toString value.length)) value none]) := by
  refine ⟨?_, ?_, ?_⟩
  · intro h
    rw [parse_payload_eq_parseAll]
    exact parseAll_short parent h
  · intro c1 c2 c3 c4 rest n hdata hp hr
    rw [parse_payload_eq_parseAll, hdata]
    exact parseAll_trunc c1 c2 c3 c4 rest parent hp hr
  · intro tag value htag hnest hval short hshort
    rw [parse_payload_eq_parseAll, string_data_append]
    rw [parseAll_encode_leaf tag value _ parent htag hnest hval]
    rw [parseAll_short parent (show (short.data : List Char).length < 4 from hshort)]
    rfl

/-- Witness for C8 at concrete truncated inputs. -/
theorem c8_truncation_witness :
    (("595" : String).length < 4 ∧ parse_payload "595" none = some [])
    ∧ (("5912HU" : String).data = '5' :: '9' :: '1' :: '2' :: ['H', 'U'] ∧
        pyInt2 '1' '2' = some 12 ∧ (['H', 'U'] : List Char).length < 12 ∧
        parse_payload "5912HU" none = some [])
    ∧ (("59" : String).length = 2 ∧ isNestingTag "59" = false ∧
        ("AB" : String).length ≤ 99 ∧ ("xy" : String).length < 4 ∧
        parse_payload (encode_tlv "59" "AB" ++ "xy") none =
          some [ParsedObj.mk "59" (get_tag_name "59" none)
            (zfill 2 (toString ("AB" : String).length)) "AB" none]) :=
  ⟨⟨by decide, (c8_truncation "595" none).1 (by decide)⟩,
   ⟨by decide, by decide, by decide,
     (c8_truncation "5912HU" none).2.1 '5' '9' '1' '2' ['H', 'U'] 12 rfl (by decide)
       (by decide)⟩,
   ⟨by decide, by decide, by decide, by decide,
     (c8_truncation (encode_tlv "59" "AB" ++ "xy") none).2.2 "59" "AB" (by decide)
       (by decide) (by decide) "xy" (by decide)⟩⟩

/-!
## Claim C10 — non-digit length descriptors are a hard error
-/

theorem scanOkFuel_succ_eq (g : Nat) (payload : List Char) :
    scanOkFuel (g + 1) payload =
      (if payload.length < 4 then true
       else
        match payload with
        | c1 :: c2 :: c3 :: c4 :: rest =>
          match pyInt2 c3 c4 with
          | none => false
          | some length =>
            if rest.length < length then true
            else
              (if isNestingTag ⟨[c1, c2]⟩ then scanOkFuel g (rest.take length) else true) &&
                scanOkFuel g (rest.drop length)
        | _ => false) := rfl

theorem scanOkFuel_mono :
    ∀ (N : Nat) (cs : List Char), cs.length ≤ N → ∀ (f₁ f₂ : Nat),
      cs.length < f₁ → cs.length < f₂ → scanOkFuel f₁ cs = scanOkFuel f₂ cs := by
  intro N
  induction N with
  | zero =>
    intro cs hcs f₁ f₂ h₁ h₂
    have hnil : cs = [] := List.length_eq_zero.mp (Nat.le_zero.mp hcs)
    subst hnil
    obtain ⟨g₁, rfl⟩ : ∃ g, f₁ = g + 1 := ⟨f₁ - 1, by omega⟩
    obtain ⟨g₂, rfl⟩ : ∃ g, f₂ = g + 1 := ⟨f₂ - 1, by omega⟩
    rw [scanOkFuel_succ_eq, scanOkFuel_succ_eq]
  | succ N IH =>
    intro cs hcs f₁ f₂ h₁ h₂
    obtain ⟨g₁, rfl⟩ : ∃ g, f₁ = g + 1 := ⟨f₁ - 1, by omega⟩
    obtain ⟨g₂, rfl⟩ : ∃ g, f₂ = g + 1 := ⟨f₂ - 1, by omega⟩
    rw [scanOkFuel_succ_eq, scanOkFuel_succ_eq]
    by_cases h4 : cs.length < 4
    · rw [if_pos h4, if_pos h4]
    · rw [if_neg h4, if_neg h4]
      match cs, h4 with
      | [], h4 => exact absurd (by simp) h4
      | [c1], h4 => exact absurd (by simp) h4
      | [c1, c2], h4 => exact absurd (by simp) h4
      | [c1, c2, c3], h4 => exact absurd (by simp) h4
      | c1 :: c2 :: c3 :: c4 :: rest, h4 =>
        simp only [List.length_cons] at hcs h₁ h₂
        cases hp : pyInt2 c3 c4 with
        | none => simp [hp]
        | some n =>
          simp only [hp]
          by_cases hr : rest.length < n
          · simp only [if_pos hr]
          · simp only [if_neg hr]
            have htN : (rest.take n).length ≤ N := by
              rw [List.length_take]
              omega
            have hdN : (rest.drop n).length ≤ N := by
              rw [List.length_drop]
              omega
            rw [IH (rest.take n) htN g₁ g₂
                (by rw [List.length_take]; omega) (by rw [List.length_take]; omega),
              IH (rest.drop n) hdN g₁ g₂
                (by rw [List.length_drop]; omega) (by rw [List.length_drop]; omega)]

/-- `scanOkFuel` with the canonical sufficient fuel. -/
def scanAll (cs : List Char) : Bool :=
  scanOkFuel (cs.length + 1) cs

theorem scanOk_eq_scanAll (s : String) : scanOk s = scanAll s.data := rfl

theorem scanOkFuel_eq_scanAll {fuel : Nat} {cs : List Char} (h : cs.length < fuel) :
    scanOkFuel fuel cs = scanAll cs :=
  scanOkFuel_mono cs.length cs (Nat.le_refl _) fuel (cs.length + 1) h (Nat.lt_succ_self _)

theorem parseAll_isSome_eq_scanAll :
    ∀ (N : Nat) (cs : List Char), cs.length ≤ N → ∀ parent : Option String,
      (parseAll cs parent).isSome = scanAll cs := by
  intro N
  induction N with
  | zero =>
    intro cs hcs parent
    have hnil : cs = [] := List.length_eq_zero.mp (Nat.le_zero.mp hcs)
    subst hnil
    rfl
  | succ N IH =>
    intro cs hcs parent
    by_cases h4 : cs.length < 4
    · rw [parseAll_short parent h4]
      unfold scanAll
      rw [scanOkFuel_succ_eq, if_pos h4]
      rfl
    · match cs, h4 with
      | [], h4 => exact absurd (by simp) h4
      | [c1], h4 => exact absurd (by simp) h4
      | [c1, c2], h4 => exact absurd (by simp) h4
      | [c1, c2, c3], h4 => exact absurd (by simp) h4
      | c1 :: c2 :: c3 :: c4 :: rest, h4 =>
        simp only [List.length_cons] at hcs
        have hfuel : (c1 :: c2 :: c3 :: c4 :: rest).length = rest.length + 4 := by
          simp
        have hscan : scanAll (c1 :: c2 :: c3 :: c4 :: rest) =
            (match pyInt2 c3 c4 with
             | none => false
             | some n =>
               if rest.length < n then true
               else
                 (if isNestingTag ⟨[c1, c2]⟩ then scanAll (rest.take n) else true) &&
                   scanAll (rest.drop n)) := by
          show scanOkFuel ((c1 :: c2 :: c3 :: c4 :: rest).length + 1)
            (c1 :: c2 :: c3 :: c4 :: rest) = _
          rw [scanOkFuel_succ_eq, if_neg h4]
          cases hp : pyInt2 c3 c4 with
          | none => simp [hp]
          | some n =>
            simp only [hp]
            by_cases hr : rest.length < n
            · rw [if_pos hr, if_pos hr]
            · rw [if_neg hr, if_neg hr]
              rw [hfuel]
              rw [scanOkFuel_eq_scanAll (by rw [List.length_take]; omega),
                scanOkFuel_eq_scanAll (by rw [List.length_drop]; omega)]
        cases hp : pyInt2 c3 c4 with
        | none =>
          rw [hscan, parseAll_int_fail c1 c2 c3 c4 rest parent hp]
          simp [hp]
        | some n =>
          rw [hscan]
          simp only [hp]
          by_cases hr : rest.length < n
          · rw [parseAll_trunc c1 c2 c3 c4 rest parent hp hr]
            simp [hr]
          · simp only [if_neg hr]
            have htN : (rest.take n).length ≤ N := by
              rw [List.length_take]
              omega
            have hdN : (rest.drop n).length ≤ N := by
              rw [List.length_drop]
              omega
            cases hnest : isNestingTag ⟨[c1, c2]⟩ with
            | false =>
              rw [parseAll_field_leaf c1 c2 c3 c4 rest parent hp hr hnest]
              simp only [hnest, Bool.false_eq_true, if_false, Bool.true_and]
              rw [Option.isSome_map']
              exact IH (rest.drop n) hdN parent
            | true =>
              rw [parseAll_field_nested c1 c2 c3 c4 rest parent hp hr hnest]
              simp only [hnest, if_true]
              cases hc : parseAll (rest.take n) (some ⟨[c1, c2]⟩) with
              | none =>
                have hx := IH (rest.take n) htN (some ⟨[c1, c2]⟩)
                rw [hc] at hx
                rw [← hx]
                rfl
              | some children =>
                have hx := IH (rest.take n) htN (some ⟨[c1, c2]⟩)
                rw [hc] at hx
                rw [← hx]
                simp only [Option.isSome_some, Bool.true_and, Option.isSome_map']
                exact IH (rest.drop n) hdN parent

/-- Claim C10: the scan returns normally exactly when every visited length
descriptor is two decimal digits (`scanOk`), and on the 4-character input
`"00XY"` — a non-digit descriptor with 4 characters remaining — it fails hard
(the `int(...)` conversion failure), rather than treating the field as a leaf
or as end-of-stream. -/
theorem c10_digit_descriptors (s : String) (parent : Option String) :
    ((parse_payload s parent).isSome = scanOk s)
    ∧ parse_payload "00XY" none = none := by
  constructor
  · rw [parse_payload_eq_parseAll, scanOk_eq_scanAll]
    exact parseAll_isSome_eq_scanAll s.data.length s.data (Nat.le_refl _) parent
  · rfl

/-!
## Two-level chunk runs: the shape of an assembled payload
-/

/-- A top-level field as the assembler emits it: either a scalar leaf or a
nesting field whose value is a run of leaf sub-fields. -/
inductive ChunkSpec where
  | leaf (tag value : String)
  | node (tag : String) (children : List (String × String))
deriving Repr, DecidableEq

/-- The encoded string of one chunk. -/
def chunkStr : ChunkSpec → String
  | .leaf t v => encode_tlv t v
  | .node t ch => encode_tlv t (concatEnc ch)

/-- Well-formedness of one chunk for the parser. -/
def chunkOk : ChunkSpec → Prop
  | .leaf t v => t.length = 2 ∧ isNestingTag t = false ∧ v.length ≤ 99
  | .node t ch =>
    t.length = 2 ∧ isNestingTag t = true ∧ (concatEnc ch).length ≤ 99 ∧ LeafChunksOk ch

/-- The parsed object one well-formed chunk decodes to. -/
def chunkObjOf (parent : Option String) : ChunkSpec → ParsedObj
  | .leaf t v => leafObjOf parent (t, v)
  | .node t ch =>
    ParsedObj.mk t (get_tag_name t parent) (zfill 2 (toString (concatEnc ch).length))
      (concatEnc ch) (some (ch.map (leafObjOf (some t))))

/-- The leaf triples one chunk contributes. -/
def chunkLeaves (parent : Option String) : ChunkSpec → List (Option String × String × String)
  | .leaf t v => [(parent, t, v)]
  | .node t ch => ch.map fun p => (some t, p.1, p.2)

/-- Concatenation of encoded chunks. -/
def concatChunks : List ChunkSpec → String
  | [] => ""
  | c :: rest => chunkStr c ++ concatChunks rest

theorem concatChunks_append (a b : List ChunkSpec) :
    concatChunks (a ++ b) = concatChunks a ++ concatChunks b := by
  induction a with
  | nil => simp [concatChunks, String.empty_append]
  | cons c rest ih => simp [concatChunks, ih, String.append_assoc]

theorem parseAll_chunks_append (chunks : List ChunkSpec) (suffix : List Char)
    (parent : Option String) (h : ∀ c ∈ chunks, chunkOk c) :
    parseAll ((concatChunks chunks).data ++ suffix) parent =
      (parseAll suffix parent).map fun objs => chunks.map (chunkObjOf parent) ++ objs := by
  induction chunks with
  | nil =>
    show parseAll (("" : String).data ++ suffix) parent = _
    cases hs : parseAll suffix parent with
    | none => simp [hs]
    | some objs => simp [hs]
  | cons c rest ih =>
    have hc := h c (List.mem_cons_self c rest)
    have hrest := fun x hx => h x (List.mem_cons_of_mem c hx)
    cases c with
    | leaf t v =>
      obtain ⟨ht2, hnest, hv⟩ := hc
      show parseAll ((encode_tlv t v ++ concatChunks rest).data ++ suffix) parent = _
      rw [string_data_append, List.append_assoc,
        parseAll_encode_leaf t v _ parent ht2 hnest hv, ih hrest]
      cases parseAll suffix parent with
      | none => rfl
      | some objs => rfl
    | node t ch =>
      obtain ⟨ht2, hnest, hlen, hch⟩ := hc
      show parseAll ((encode_tlv t (concatEnc ch) ++ concatChunks rest).data ++ suffix)
          parent = _
      rw [string_data_append, List.append_assoc,
        parseAll_encode_nested t _ _ parent ht2 hnest hlen,
        parseAll_concatEnc_leaves ch (some t) hch, ih hrest]
      cases parseAll suffix parent with
      | none => rfl
      | some objs => rfl

theorem parseAll_chunks (chunks : List ChunkSpec) (parent : Option String)
    (h : ∀ c ∈ chunks, chunkOk c) :
    parseAll (concatChunks chunks).data parent = some (chunks.map (chunkObjOf parent)) := by
  have happ := parseAll_chunks_append chunks [] parent h
  rw [List.append_nil] at happ
  rw [happ, parseAll_short parent (by simp)]
  simp

theorem leafTriples_chunkObjs (parent : Option String) (chunks : List ChunkSpec) :
    leafTriples parent (chunks.map (chunkObjOf parent)) =
      chunks.flatMap (chunkLeaves parent) := by
  induction chunks with
  | nil => simp [leafTriples_nil]
  | cons c rest ih =>
    cases c with
    | leaf t v =>
      simp only [List.map_cons, chunkObjOf, leafObjOf, leafTriples_cons_leaf, ih,
        List.flatMap_cons, chunkLeaves]
      rfl
    | node t ch =>
      simp only [List.map_cons, chunkObjOf, leafTriples_cons_node, ih, List.flatMap_cons,
        chunkLeaves, leafTriples_map_leafObj]

/-!
## The assembled payload as a chunk run
-/

/-- Zero-fill every tag of a pair run to two digits, as `encode_tlv` does when
the run is emitted. -/
def padPairs (pairs : List (String × String)) : List (String × String) :=
  pairs.map fun p => (zfill 2 p.1, p.2)

theorem concatEnc_padPairs (pairs : List (String × String)) :
    concatEnc (padPairs pairs) = concatEnc pairs := by
  induction pairs with
  | nil => rfl
  | cons p rest ih =>
    simp only [padPairs, List.map_cons, concatEnc] at ih ⊢
    rw [encode_tlv_zfill, ih]

/-- The (sub-tag, value) pairs of one payment system. -/
def paymentPairsOf (ps : PaymentSystem) : List (String × String) :=
  ("00", ps.global_identifier) :: ps.fields.map fun f => (f.id, f.value)

theorem generate_payment_system_eq (ps : PaymentSystem) :
    generate_payment_system ps = concatEnc (paymentPairsOf ps) := by
  unfold generate_payment_system paymentPairsOf
  rw [encode_nested_tlv_eq_concatEnc]
  simp only [List.map_cons, List.map_map]
  rfl

/-- The payment-system loop as chunks. -/
def paymentChunks : Nat → List PaymentSystem → List ChunkSpec
  | _, [] => []
  | n, ps :: rest =>
    let pid := ps.preferred_id.getD (toString n)
    ChunkSpec.node (zfill 2 pid) (padPairs (paymentPairsOf ps)) ::
      paymentChunks (if pid = toString n then n + 1 else n) rest

theorem concatChunks_paymentChunks (n : Nat) (systems : List PaymentSystem) :
    concatChunks (paymentChunks n systems) = concatEnc (paymentFieldPairs n systems) := by
  induction systems generalizing n with
  | nil => rfl
  | cons ps rest ih =>
    simp only [paymentChunks, concatChunks, paymentFieldPairs, concatEnc]
    rw [ih]
    refine congrArg₂ (· ++ ·) ?_ rfl
    show encode_tlv (zfill 2 (ps.preferred_id.getD (toString n)))
        (concatEnc (padPairs (paymentPairsOf ps))) = _
    rw [concatEnc_padPairs, ← generate_payment_system_eq, encode_tlv_zfill]

/-- The identifier-block (sub-tag, value) pairs with defaults applied. -/
def sgqrPairs (today : String) (sgqr_config : SgqrIdConfig) : List (String × String) :=
  [("00", "SG.SGQR"),
   ("01", sgqr_config.sgqr_number.getD "250626348124"),
   ("02", sgqr_config.version.getD "01.0001"),
   ("03", sgqr_config.postal_code.getD "000000"),
   ("04", sgqr_config.level.getD "01"),
   ("05", sgqr_config.unit.getD "001"),
   ("06", sgqr_config.misc.getD "0000"),
   ("07", sgqr_config.revision_date.getD today)]

theorem generate_sgqr_id_eq (today : String) (cfg : SgqrIdConfig) :
    generate_sgqr_id today cfg = concatEnc (sgqrPairs today cfg) := by
  unfold generate_sgqr_id sgqrPairs
  rw [encode_nested_tlv_eq_concatEnc]
  rfl

/-- The language-template (sub-tag, value) pairs. -/
def langPairs (config : PayloadConfig) : List (String × String) :=
  [("00", "EN"), ("01", config.merchant_name.getD "MERCHANT")]

theorem lang_value_eq (config : PayloadConfig) :
    encode_nested_tlv [⟨"00", "EN"⟩, ⟨"01", config.merchant_name.getD "MERCHANT"⟩] =
      concatEnc (langPairs config) := by
  rw [encode_nested_tlv_eq_concatEnc]
  rfl

/-- The entire body of a built payload (steps 1–13) as a chunk run. -/
def topChunks (today : String) (config : PayloadConfig) : List ChunkSpec :=
  ChunkSpec.leaf "00" "01" ::
    ChunkSpec.leaf "01" (config.initiation_method.getD "11") ::
    (paymentChunks 26 config.payment_systems ++
      (ChunkSpec.node "51" (sgqrPairs today config.sgqr_id) ::
        ChunkSpec.leaf "52" (config.merchant_category_code.getD "0000") ::
        ChunkSpec.leaf "53" (config.currency.getD "702") ::
        ((match config.amount with
          | some amount => [ChunkSpec.leaf "54" amount]
          | none => []) ++
          (ChunkSpec.leaf "58" (config.country_code.getD "SG") ::
            ChunkSpec.leaf "59" (config.merchant_name.getD "MERCHANT") ::
            ChunkSpec.leaf "60" (config.merchant_city.getD "Singapore") ::
            ((match config.merchant_postal_code with
              | some merchant_postal_code => [ChunkSpec.leaf "61" merchant_postal_code]
              | none => []) ++
              ((if concatEnc (additionalDataFields config.additional_data) ≠ "" then
                  [ChunkSpec.node "62" (additionalDataFields config.additional_data)]
                else []) ++
                [ChunkSpec.node "64" (langPairs config)]))))))

theorem payloadBody_eq_concatChunks (today : String) (config : PayloadConfig) :
    payloadBody today config = concatChunks (topChunks today config) := by
  cases hA : config.amount with
  | none =>
    cases hP : config.merchant_postal_code with
    | none =>
      by_cases hadd : concatEnc (additionalDataFields config.additional_data) ≠ ""
      all_goals
        simp only [payloadBody, hA, hP, paymentSystemsFold_eq, foldl_append_enc,
          String.empty_append, generate_sgqr_id_eq, lang_value_eq, hadd, if_true, if_false,
          ite_true, ite_false, not_true, not_false_iff, topChunks, List.cons_append,
          List.append_assoc, concatChunks_append, concatChunks, chunkStr,
          concatChunks_paymentChunks, String.append_empty, String.append_assoc,
          List.nil_append, ite_not, not_not]
    | some postal =>
      by_cases hadd : concatEnc (additionalDataFields config.additional_data) ≠ ""
      all_goals
        simp only [payloadBody, hA, hP, paymentSystemsFold_eq, foldl_append_enc,
          String.empty_append, generate_sgqr_id_eq, lang_value_eq, hadd, if_true, if_false,
          ite_true, ite_false, not_true, not_false_iff, topChunks, List.cons_append,
          List.append_assoc, concatChunks_append, concatChunks, chunkStr,
          concatChunks_paymentChunks, String.append_empty, String.append_assoc,
          List.nil_append, ite_not, not_not]
  | some amount =>
    cases hP : config.merchant_postal_code with
    | none =>
      by_cases hadd : concatEnc (additionalDataFields config.additional_data) ≠ ""
      all_goals
        simp only [payloadBody, hA, hP, paymentSystemsFold_eq, foldl_append_enc,
          String.empty_append, generate_sgqr_id_eq, lang_value_eq, hadd, if_true, if_false,
          ite_true, ite_false, not_true, not_false_iff, topChunks, List.cons_append,
          List.append_assoc, concatChunks_append, concatChunks, chunkStr,
          concatChunks_paymentChunks, String.append_empty, String.append_assoc,
          List.nil_append, ite_not, not_not]
    | some postal =>
      by_cases hadd : concatEnc (additionalDataFields config.additional_data) ≠ ""
      all_goals
        simp only [payloadBody, hA, hP, paymentSystemsFold_eq, foldl_append_enc,
          String.empty_append, generate_sgqr_id_eq, lang_value_eq, hadd, if_true, if_false,
          ite_true, ite_false, not_true, not_false_iff, topChunks, List.cons_append,
          List.append_assoc, concatChunks_append, concatChunks, chunkStr,
          concatChunks_paymentChunks, String.append_empty, String.append_assoc,
          List.nil_append, ite_not, not_not]

theorem generate_payload_eq_concatChunks (today : String) (config : PayloadConfig) :
    generate_payload today config =
      concatChunks (topChunks today config ++
        [ChunkSpec.leaf "63" (calculate_crc16 (payloadBody today config))]) := by
  rw [concatChunks_append]
  show payloadBody today config ++
      encode_tlv "63" (calculate_crc16 (payloadBody today config)) = _
  rw [payloadBody_eq_concatChunks]
  simp only [concatChunks, chunkStr, String.append_empty]

/-!
## Well-formedness hypotheses for the round trip
-/

theorem mem_account_tags_length {t : String} (h : t ∈ MERCHANT_ACCOUNT_TAGS) :
    t.length = 2 := by
  have hall : ∀ x ∈ MERCHANT_ACCOUNT_TAGS, x.length = 2 := by decide
  exact hall t h

theorem mem_account_tags_nesting {t : String} (h : t ∈ MERCHANT_ACCOUNT_TAGS) :
    isNestingTag t = true :=
  decide_eq_true (Or.inl h)

theorem valid_ids_ok :
    ∀ t ∈ valid_additional_data_ids, t.length = 2 ∧ isNestingTag t = false := by
  decide

theorem leafPair_ok {a b : String} (h1 : a.length = 2) (h2 : isNestingTag a = false)
    (h3 : b.length ≤ 99) :
    (a, b).1.length = 2 ∧ isNestingTag (a, b).1 = false ∧ (a, b).2.length ≤ 99 :=
  ⟨h1, h2, h3⟩

theorem digit_ne_sign {c : Char} (h : c.isDigit = true) : c ≠ '+' ∧ c ≠ '-' := by
  constructor
  · rintro rfl
    exact absurd h (by decide)
  · rintro rfl
    exact absurd h (by decide)

/-- Per-entry safety of the payment-system list: assigned tags (after
zero-filling) land in the merchant-account range, sub-tags are short
non-nesting, and all values fit two-digit lengths. -/
def paymentsSafeB : Nat → List PaymentSystem → Bool
  | _, [] => true
  | n, ps :: rest =>
    let payment_id := ps.preferred_id.getD (toString n)
    decide (zfill 2 payment_id ∈ MERCHANT_ACCOUNT_TAGS) &&
      decide (ps.global_identifier.length ≤ 99) &&
      ps.fields.all (fun f =>
        decide (f.id.length ≤ 2) && !isNestingTag (zfill 2 f.id) &&
          decide (f.value.length ≤ 99)) &&
      decide ((generate_payment_system ps).length ≤ 99) &&
      paymentsSafeB (if payment_id = toString n then n + 1 else n) rest

/-- The hypotheses under which a built payload parses back losslessly: every
emitted value fits a two-digit length descriptor, every nested block stays
within 99 characters, assigned payment tags are in the merchant-account
range, and payment sub-tags are not themselves nesting tags. -/
@[reducible] def RoundTripSafe (today : String) (config : PayloadConfig) : Prop :=
  (config.initiation_method.getD "11").length ≤ 99 ∧
  paymentsSafeB 26 config.payment_systems = true ∧
  (∀ p ∈ sgqrPairs today config.sgqr_id, p.2.length ≤ 99) ∧
  (generate_sgqr_id today config.sgqr_id).length ≤ 99 ∧
  (config.merchant_category_code.getD "0000").length ≤ 99 ∧
  (config.currency.getD "702").length ≤ 99 ∧
  (config.amount.getD "").length ≤ 99 ∧
  (config.country_code.getD "SG").length ≤ 99 ∧
  (config.merchant_name.getD "MERCHANT").length ≤ 99 ∧
  (config.merchant_city.getD "Singapore").length ≤ 99 ∧
  (config.merchant_postal_code.getD "").length ≤ 99 ∧
  (∀ p ∈ additionalDataFields config.additional_data, p.2.length ≤ 99) ∧
  (concatEnc (additionalDataFields config.additional_data)).length ≤ 99 ∧
  (concatEnc (langPairs config)).length ≤ 99

theorem paymentChunks_ok {n : Nat} {systems : List PaymentSystem}
    (h : paymentsSafeB n systems = true) :
    ∀ c ∈ paymentChunks n systems, chunkOk c := by
  induction systems generalizing n with
  | nil =>
    intro c hc
    simp [paymentChunks] at hc
  | cons ps rest ih =>
    simp only [paymentsSafeB, Bool.and_eq_true, decide_eq_true_eq, List.all_eq_true,
      Bool.not_eq_true'] at h
    obtain ⟨⟨⟨⟨h1, h2⟩, h3⟩, h4⟩, h5⟩ := h
    intro c hc
    simp only [paymentChunks, List.mem_cons] at hc
    rcases hc with rfl | hmem
    · refine ⟨mem_account_tags_length h1, mem_account_tags_nesting h1, ?_, ?_⟩
      · rw [concatEnc_padPairs, ← generate_payment_system_eq]
        exact h4
      · intro p hp
        simp only [padPairs, paymentPairsOf, List.map_cons, List.mem_cons, List.map_map,
          List.mem_map, Function.comp] at hp
        rcases hp with rfl | ⟨f, hf, rfl⟩
        · exact leafPair_ok (by decide) (by decide) h2
        · have hfs := h3 f hf
          simp only [Bool.and_eq_true, decide_eq_true_eq, Bool.not_eq_true'] at hfs
          obtain ⟨⟨hf1, hf2⟩, hf3⟩ := hfs
          refine leafPair_ok ?_ hf2 hf3
          rw [zfill_length]
          omega
    · exact ih h5 c hmem

theorem sgqrPairs_leafOk (today : String) (cfg : SgqrIdConfig)
    (h : ∀ p ∈ sgqrPairs today cfg, p.2.length ≤ 99) :
    LeafChunksOk (sgqrPairs today cfg) := by
  intro p hp
  have hv := h p hp
  simp only [sgqrPairs, List.mem_cons, List.not_mem_nil, or_false] at hp
  rcases hp with rfl | rfl | rfl | rfl | rfl | rfl | rfl | rfl <;>
    exact leafPair_ok (by decide) (by decide) hv

theorem additionalDataFields_ids (cfg : Option AdditionalData) :
    ∀ p ∈ additionalDataFields cfg, p.1 ∈ valid_additional_data_ids := by
  intro p hp
  cases cfg with
  | none => simp [additionalDataFields] at hp
  | some ad =>
    cases ad with
    | dict entries =>
      simp only [additionalDataFields, List.mem_filterMap] at hp
      obtain ⟨k, _, hk⟩ := hp
      split at hk
      · split at hk
        · exact absurd hk (by simp)
        · split at hk
          · exact absurd hk (by simp)
          · rename_i v hj hv
            have hpe : (zfill 2 k, v) = p := by
              simpa using hk
            rw [← hpe]
            show zfill 2 k ∈ valid_additional_data_ids
            assumption
      · exact absurd hk (by simp)
    | list fields =>
      simp only [additionalDataFields, List.mem_filterMap] at hp
      obtain ⟨f, _, hk⟩ := hp
      split at hk
      · split at hk
        · exact absurd hk (by simp)
        · split at hk
          · exact absurd hk (by simp)
          · rename_i v hj hv
            have hpe : (zfill 2 (f.id.getD ""), v) = p := by
              simpa using hk
            rw [← hpe]
            show zfill 2 (f.id.getD "") ∈ valid_additional_data_ids
            assumption
      · exact absurd hk (by simp)

theorem additionalFields_leafOk (cfg : Option AdditionalData)
    (h : ∀ p ∈ additionalDataFields cfg, p.2.length ≤ 99) :
    LeafChunksOk (additionalDataFields cfg) := by
  intro p hp
  have hid := valid_ids_ok p.1 (additionalDataFields_ids cfg p hp)
  exact ⟨hid.1, hid.2, h p hp⟩

theorem langPairs_leafOk (config : PayloadConfig)
    (h : (config.merchant_name.getD "MERCHANT").length ≤ 99) :
    LeafChunksOk (langPairs config) := by
  intro p hp
  simp only [langPairs, List.mem_cons, List.not_mem_nil, or_false] at hp
  rcases hp with rfl | rfl
  · exact leafPair_ok (by decide) (by decide) (by decide)
  · exact leafPair_ok (by decide) (by decide) h

theorem topChunks_ok {today : String} {config : PayloadConfig}
    (h : RoundTripSafe today config) :
    ∀ c ∈ topChunks today config ++
      [ChunkSpec.leaf "63" (calculate_crc16 (payloadBody today config))], chunkOk c := by
  obtain ⟨h1, h2, h3, h4, h5, h6, h7, h8, h9, h10, h11, h12, h13, h14⟩ := h
  intro c hc
  rw [List.mem_append] at hc
  rcases hc with hc | hc
  · simp only [topChunks, List.mem_cons, List.mem_append] at hc
    rcases hc with rfl | rfl | hc | rfl | rfl | rfl | hc54 | rfl | rfl | rfl | hc61 | hc62 | rfl | hnil
    · exact ⟨by decide, by decide, by decide⟩
    · exact ⟨by decide, by decide, h1⟩
    · exact paymentChunks_ok h2 c hc
    · refine ⟨by decide, by decide, ?_, sgqrPairs_leafOk today config.sgqr_id h3⟩
      rw [← generate_sgqr_id_eq]
      exact h4
    · exact ⟨by decide, by decide, h5⟩
    · exact ⟨by decide, by decide, h6⟩
    · cases hA : config.amount with
      | none => simp [hA] at hc54
      | some amount =>
        simp only [hA, List.mem_cons, List.not_mem_nil, or_false] at hc54
        subst hc54
        rw [hA] at h7
        exact ⟨by decide, by decide, h7⟩
    · exact ⟨by decide, by decide, h8⟩
    · exact ⟨by decide, by decide, h9⟩
    · exact ⟨by decide, by decide, h10⟩
    · cases hP : config.merchant_postal_code with
      | none => simp [hP] at hc61
      | some postal =>
        simp only [hP, List.mem_cons, List.not_mem_nil, or_false] at hc61
        subst hc61
        rw [hP] at h11
        exact ⟨by decide, by decide, h11⟩
    · by_cases hadd : concatEnc (additionalDataFields config.additional_data) ≠ ""
      · rw [if_pos hadd] at hc62
        simp only [List.mem_cons, List.not_mem_nil, or_false] at hc62
        subst hc62
        exact ⟨by decide, by decide, h13,
          additionalFields_leafOk config.additional_data h12⟩
      · rw [if_neg hadd] at hc62
        simp at hc62
    · exact ⟨by decide, by decide, h14, langPairs_leafOk config h9⟩
    · simp at hnil
  · simp only [List.mem_cons, List.not_mem_nil, or_false] at hc
    subst hc
    refine ⟨by decide, by decide, ?_⟩
    rw [calculate_crc16_length]
    omega

/-!
## C1: the round trip and its leaf-level content
-/

/-- The leaf triples contributed by the payment-system blocks: each block's
global identifier under sub-tag `"00"` and its caller-supplied sub-fields,
all parented by the block's assigned (zero-filled) top-level tag. -/
def paymentLeaves : Nat → List PaymentSystem → List (Option String × String × String)
  | _, [] => []
  | n, ps :: rest =>
    let pid := ps.preferred_id.getD (toString n)
    ((some (zfill 2 pid), "00", ps.global_identifier) ::
      ps.fields.map fun f => (some (zfill 2 pid), zfill 2 f.id, f.value)) ++
      paymentLeaves (if pid = toString n then n + 1 else n) rest

theorem paymentChunks_leaves (n : Nat) (systems : List PaymentSystem) :
    (paymentChunks n systems).flatMap (chunkLeaves none) = paymentLeaves n systems := by
  induction systems generalizing n with
  | nil => rfl
  | cons ps rest ih =>
    simp only [paymentChunks, paymentLeaves, List.flatMap_cons, chunkLeaves, padPairs,
      paymentPairsOf, List.map_cons, List.map_map, ih, List.cons_append]
    rfl

/-- The leaf tag/value triples a successfully parsed build must carry: the
config's information (with documented defaults for omitted fields) plus the
version/initiation preamble and the trailing checksum leaf. -/
def expectedLeaves (today : String) (config : PayloadConfig) :
    List (Option String × String × String) :=
  (none, "00", "01") ::
    (none, "01", config.initiation_method.getD "11") ::
    (paymentLeaves 26 config.payment_systems ++
      ((sgqrPairs today config.sgqr_id).map (fun p => ((some "51" : Option String), p.1, p.2)) ++
        ((none, "52", config.merchant_category_code.getD "0000") ::
          (none, "53", config.currency.getD "702") ::
          ((match config.amount with
            | some amount => [((none : Option String), "54", amount)]
            | none => []) ++
            ((none, "58", config.country_code.getD "SG") ::
              (none, "59", config.merchant_name.getD "MERCHANT") ::
              (none, "60", config.merchant_city.getD "Singapore") ::
              ((match config.merchant_postal_code with
                | some postal => [((none : Option String), "61", postal)]
                | none => []) ++
                ((if concatEnc (additionalDataFields config.additional_data) ≠ "" then
                    (additionalDataFields config.additional_data).map
                      (fun p => ((some "62" : Option String), p.1, p.2))
                  else []) ++
                  ((some "64", "00", "EN") ::
                    (some "64", "01", config.merchant_name.getD "MERCHANT") ::
                    [(none, "63", calculate_crc16 (payloadBody today config))]))))))))

theorem topChunks_leaves (today : String) (config : PayloadConfig) :
    (topChunks today config ++
      [ChunkSpec.leaf "63" (calculate_crc16 (payloadBody today config))]).flatMap
        (chunkLeaves none) = expectedLeaves today config := by
  cases hA : config.amount <;> cases hP : config.merchant_postal_code <;>
    by_cases hadd : concatEnc (additionalDataFields config.additional_data) ≠ "" <;>
    simp only [topChunks, expectedLeaves, hA, hP, hadd, if_true, if_false, ite_true,
      ite_false, not_true, not_false_iff, ite_not, not_not, List.flatMap_cons,
      List.flatMap_append, List.flatMap_nil, chunkLeaves, paymentChunks_leaves, langPairs,
      List.map_cons, List.map_nil, List.cons_append, List.nil_append, List.append_assoc,
      List.append_nil]

/-- A concrete small configuration on which the round trip is exercised. -/
def roundTripConfig : PayloadConfig where
  payment_systems :=
    [{ global_identifier := "com.example", fields := [{ id := "01", value := "REF1" }] }]
  merchant_name := some "TEST SHOP"
  amount := some "7.50"

/-- C1 (corrected): whenever every emitted value fits a two-digit length
descriptor and the payment tags are well-assigned (`RoundTripSafe`),
`parse_payload` applied to `generate_payload`'s output succeeds and its leaf
tag/value triples are exactly the config's information with the documented
defaults (`expectedLeaves`). The safety hypothesis is not vacuous: the build
itself never fails, and `c1_counterexample` exhibits a config whose build
emits a payload the parser rejects. -/
theorem c1_round_trip (today : String) (config : PayloadConfig)
    (h : RoundTripSafe today config) :
    ∃ objs, parse_payload (generate_payload today config) none = some objs ∧
      leafTriples none objs = expectedLeaves today config := by
  refine ⟨(topChunks today config ++
      [ChunkSpec.leaf "63" (calculate_crc16 (payloadBody today config))]).map
        (chunkObjOf none), ?_, ?_⟩
  · rw [parse_payload_eq_parseAll, generate_payload_eq_concatChunks]
    exact parseAll_chunks _ none (topChunks_ok h)
  · rw [leafTriples_chunkObjs]
    exact topChunks_leaves today config

/-- C1 witness: the round trip at a concrete safe configuration. -/
theorem c1_round_trip_witness :
    RoundTripSafe "20250101" roundTripConfig ∧
      ∃ objs, parse_payload (generate_payload "20250101" roundTripConfig) none = some objs ∧
        leafTriples none objs = expectedLeaves "20250101" roundTripConfig :=
  ⟨by decide, c1_round_trip "20250101" roundTripConfig (by decide)⟩

/-- A 100-character merchant name: its length descriptor needs three digits. -/
def aHundred : String := ⟨List.replicate 100 'A'⟩

/-- A configuration whose build emits an overlong field. -/
def overlongConfig : PayloadConfig where
  merchant_name := some aHundred

/-- The chunks the build of `overlongConfig` emits before the merchant-name
field: all well-formed. -/
def preChunks : List ChunkSpec :=
  [ChunkSpec.leaf "00" "01", ChunkSpec.leaf "01" "11",
   ChunkSpec.node "51" (sgqrPairs "20250101" {}), ChunkSpec.leaf "52" "0000",
   ChunkSpec.leaf "53" "702", ChunkSpec.leaf "58" "SG"]

/-- The chunks the build of `overlongConfig` emits after the merchant-name
field. -/
def postChunks : List ChunkSpec :=
  [ChunkSpec.leaf "60" "Singapore",
   ChunkSpec.node "64" [("00", "EN"), ("01", aHundred)],
   ChunkSpec.leaf "63" (calculate_crc16 (payloadBody "20250101" overlongConfig))]

theorem preChunks_ok : ∀ c ∈ preChunks, chunkOk c := by
  intro c hc
  simp only [preChunks, List.mem_cons, List.not_mem_nil, or_false] at hc
  rcases hc with rfl | rfl | rfl | rfl | rfl | rfl
  · exact ⟨by decide, by decide, by decide⟩
  · exact ⟨by decide, by decide, by decide⟩
  · exact ⟨by decide, by decide, by decide, by decide⟩
  · exact ⟨by decide, by decide, by decide⟩
  · exact ⟨by decide, by decide, by decide⟩
  · exact ⟨by decide, by decide, by decide⟩

theorem overlong_data_eq (t : String) :
    (encode_tlv "59" aHundred ++ t).data =
      '5' :: '9' :: '1' :: '0' :: ('0' :: (List.replicate 100 'A' ++ t.data)) := by
  rw [string_data_append,
    show (encode_tlv "59" aHundred).data =
      ('5' :: '9' :: '1' :: '0' :: '0' :: List.replicate 100 'A') from by decide]
  simp only [List.cons_append]

theorem overlong_drop_eq (X : List Char) :
    ('0' :: (List.replicate 100 'A' ++ X)).drop 10 =
      'A' :: 'A' :: 'A' :: 'A' :: (List.replicate 87 'A' ++ X) := by
  rw [List.drop_succ_cons, List.drop_append_of_le_length (by simp),
    show (List.replicate 100 'A').drop 9 =
      ('A' :: 'A' :: 'A' :: 'A' :: List.replicate 87 'A') from by decide]
  simp only [List.cons_append]

theorem overlong_inner_none (X : List Char) :
    parseAll ('5' :: '9' :: '1' :: '0' :: ('0' :: (List.replicate 100 'A' ++ X))) none =
      none := by
  rw [@parseAll_field_leaf '5' '9' '1' '0' _ none 10 (by decide)
      (by simp only [List.length_cons, List.length_append, List.length_replicate]; omega)
      (by decide)]
  rw [overlong_drop_eq, parseAll_int_fail 'A' 'A' 'A' 'A' _ none (by decide)]
  rfl

theorem overlong_outer_none :
    parseAll (concatChunks (preChunks ++
      (ChunkSpec.leaf "59" aHundred :: postChunks))).data none = none := by
  rw [concatChunks_append,
    show concatChunks (ChunkSpec.leaf "59" aHundred :: postChunks) =
      encode_tlv "59" aHundred ++ concatChunks postChunks from rfl,
    string_data_append, parseAll_chunks_append preChunks _ none preChunks_ok,
    overlong_data_eq, overlong_inner_none]
  rfl

/-- C1 counterexample: building `overlongConfig` "succeeds" (the builder is
total and raises nothing), yet the emitted payload does not parse back: the
100-character merchant name gets the three-digit descriptor `"100"`, which the
parser reads as length 10 and then chokes on `'A'` characters where the next
descriptor should be. -/
theorem c1_counterexample :
    parse_payload (generate_payload "20250101" overlongConfig) none = none := by
  rw [parse_payload_eq_parseAll, generate_payload_eq_concatChunks,
    show topChunks "20250101" overlongConfig ++
      [ChunkSpec.leaf "63" (calculate_crc16 (payloadBody "20250101" overlongConfig))] =
      preChunks ++ (ChunkSpec.leaf "59" aHundred :: postChunks) from rfl]
  exact overlong_outer_none

/-!
## C7: emitted field widths
-/

/-- The tag/value pair one chunk emits at its own level (for a nested block
the value is the concatenation of its encoded children). -/
def chunkField : ChunkSpec → String × String
  | .leaf t v => (t, v)
  | .node t ch => (t, concatEnc ch)

/-- Every tag/value field a build emits, top-level (including the checksum
field) and nested (the children of the nested blocks). -/
def emittedFields (today : String) (config : PayloadConfig) : List (String × String) :=
  (topChunks today config ++
      [ChunkSpec.leaf "63" (calculate_crc16 (payloadBody today config))]).map chunkField ++
    (topChunks today config).flatMap fun c =>
      match c with
      | .leaf _ _ => []
      | .node _ ch => ch

theorem zfill_digits {w : Nat} {s : String} (h : ∀ c ∈ s.data, c.isDigit = true) :
    ∀ c ∈ (zfill w s).data, c.isDigit = true := by
  by_cases hw : w ≤ s.length
  · rw [zfill_of_ge hw]
    exact h
  · have hsign : ∀ c₀ ∈ s.data.head?, c₀ ≠ '+' ∧ c₀ ≠ '-' := fun c₀ hc₀ =>
      digit_ne_sign (h c₀ (List.mem_of_mem_head? hc₀))
    rw [zfill_no_sign (by omega) hsign]
    show ∀ c ∈ List.replicate (w - s.length) '0' ++ s.data, c.isDigit = true
    intro c hc
    rcases List.mem_append.mp hc with hc | hc
    · rw [List.eq_of_mem_replicate hc]
      decide
    · exact h c hc

/-- C7 (corrected): provided every emitted tag is at most two decimal digits
and every emitted value is at most 99 characters, each emitted field is
encoded as a two-digit zero-filled tag followed by a two-digit decimal length
descriptor that parses back to the exact character count of the value
(`descriptorOkB`).  The width hypothesis is necessary: `c7_counterexample`
exhibits an emitted field whose descriptor has three digits. -/
theorem c7_field_widths (today : String) (config : PayloadConfig)
    (h : ∀ p ∈ emittedFields today config,
      (∀ c ∈ p.1.data, c.isDigit = true) ∧ p.1.length ≤ 2 ∧ p.2.length ≤ 99) :
    generate_payload today config =
      concatChunks (topChunks today config ++
        [ChunkSpec.leaf "63" (calculate_crc16 (payloadBody today config))]) ∧
    ∀ p ∈ emittedFields today config,
      encode_tlv p.1 p.2 = zfill 2 p.1 ++ zfill 2 (toString p.2.length) ++ p.2 ∧
      (zfill 2 p.1).length = 2 ∧ (∀ c ∈ (zfill 2 p.1).data, c.isDigit = true) ∧
      (zfill 2 (toString p.2.length)).length = 2 ∧ descriptorOkB p.2.length = true := by
  refine ⟨generate_payload_eq_concatChunks today config, fun p hp => ?_⟩
  obtain ⟨hdig, htag, hval⟩ := h p hp
  refine ⟨rfl, ?_, zfill_digits hdig, descriptor_length_two _ hval,
    descriptorOk_of_le99 hval⟩
  rw [zfill_length]
  omega

/-- The configuration the C7 witness is evaluated at. -/
def c7Config : PayloadConfig where
  payment_systems :=
    [{ global_identifier := "com.demo", fields := [{ id := "01", value := "X1" }] }]

set_option maxRecDepth 4000 in
theorem c7Config_fields_ok :
    ∀ p ∈ emittedFields "20250101" c7Config,
      (∀ c ∈ p.1.data, c.isDigit = true) ∧ p.1.length ≤ 2 ∧ p.2.length ≤ 99 := by
  intro p hp
  rcases List.mem_append.mp hp with hp | hp
  · obtain ⟨c, hc, rfl⟩ := List.mem_map.mp hp
    rcases List.mem_append.mp hc with hc | hc
    · have hc' : c ∈ topChunks "20250101" c7Config := hc
      rw [show topChunks "20250101" c7Config =
        [ChunkSpec.leaf "00" "01", ChunkSpec.leaf "01" "11",
         ChunkSpec.node "26" [("00", "com.demo"), ("01", "X1")],
         ChunkSpec.node "51" (sgqrPairs "20250101" {}), ChunkSpec.leaf "52" "0000",
         ChunkSpec.leaf "53" "702", ChunkSpec.leaf "58" "SG",
         ChunkSpec.leaf "59" "MERCHANT", ChunkSpec.leaf "60" "Singapore",
         ChunkSpec.node "64" [("00", "EN"), ("01", "MERCHANT")]] from rfl] at hc'
      fin_cases hc' <;> exact ⟨by decide, by decide, by decide⟩
    · rw [show c = ChunkSpec.leaf "63" (calculate_crc16 (payloadBody "20250101" c7Config))
        from by simpa using hc]
      refine ⟨by decide, by decide, ?_⟩
      have hlen : (calculate_crc16 (payloadBody "20250101" c7Config)).length = 4 :=
        calculate_crc16_length _
      simp only [chunkField]
      omega
  · have hp' : p ∈ (topChunks "20250101" c7Config).flatMap fun c =>
      match c with
      | ChunkSpec.leaf _ _ => []
      | ChunkSpec.node _ ch => ch := hp
    rw [show ((topChunks "20250101" c7Config).flatMap fun c =>
      match c with
      | ChunkSpec.leaf _ _ => []
      | ChunkSpec.node _ ch => ch) =
      ([("00", "com.demo"), ("01", "X1")] ++
        (sgqrPairs "20250101" {} ++ [("00", "EN"), ("01", "MERCHANT")])) from rfl] at hp'
    fin_cases hp' <;> exact ⟨by decide, by decide, by decide⟩

/-- C7 witness: the field-width invariant holds at a concrete build with a
nested payment block. -/
theorem c7_field_widths_witness :
    (∀ p ∈ emittedFields "20250101" c7Config,
      (∀ c ∈ p.1.data, c.isDigit = true) ∧ p.1.length ≤ 2 ∧ p.2.length ≤ 99) ∧
    (generate_payload "20250101" c7Config =
      concatChunks (topChunks "20250101" c7Config ++
        [ChunkSpec.leaf "63" (calculate_crc16 (payloadBody "20250101" c7Config))]) ∧
    ∀ p ∈ emittedFields "20250101" c7Config,
      encode_tlv p.1 p.2 = zfill 2 p.1 ++ zfill 2 (toString p.2.length) ++ p.2 ∧
      (zfill 2 p.1).length = 2 ∧ (∀ c ∈ (zfill 2 p.1).data, c.isDigit = true) ∧
      (zfill 2 (toString p.2.length)).length = 2 ∧ descriptorOkB p.2.length = true) :=
  ⟨c7Config_fields_ok, c7_field_widths "20250101" c7Config c7Config_fields_ok⟩

/-- C7 counterexample: the build of `overlongConfig` emits the field
`("59", 100 copies of 'A')`, whose length descriptor `zfill 2 (toString 100)`
is the three-character string `"100"` - not two decimal digits. -/
theorem c7_counterexample :
    ("59", aHundred) ∈ emittedFields "20250101" overlongConfig ∧
      (zfill 2 (toString (aHundred : String).length)).length = 3 := by
  constructor
  · exact List.mem_append_left _ (List.mem_map.mpr
      ⟨ChunkSpec.leaf "59" aHundred, List.mem_append_left _ (by decide), rfl⟩)
  · decide

end SGQR
